import Mathlib

/-! yahoo-oauth-helper: a verification development

A shallow embedding of `src/yahoo-oauth-helper/yahoo-oauth-helper.go` and theorems
about it.

* Go strings are byte sequences (`GoString`); nothing forces them to be valid UTF-8.
* The functions of the program (`Write`, `GetCode`, `GetToken`, `LoadToken`,
  `lintArgs`, `help`, `checkEnv`, `main`) are translated line by line, under their
  names. The file system, the standard output and the operations performed are
  explicit state: every function takes a `World` and returns the next one. The
  exchange endpoint is a function from the request to what comes back.
* The library routines the program calls (`encoding/json`, `unicode/utf8`,
  `strconv`, `encoding/base64`, `net/url`, `fmt`, `flag`, `os`) are modelled by
  executable functions that follow the behaviour of the Go standard library
  (Go 1.22): what `json.Marshal` escapes, how `json.Unmarshal` matches keys, stores
  values and reports errors, what `fmt.Printf` prints for a verb without operand.
* A nil `*GetTokenResponse` is `none`; dereferencing it ends the run in
  `Result.panic`.

The definitions come first, then the theorems. A theorem whose comment starts with
`C1` .. `C10` settles the claim of that number.
-/

namespace YahooOAuth

/-! ## Bytes and Go strings -/

/-- A byte. -/
abbrev Byte := Fin 256

/-- A Go `string`: an arbitrary sequence of bytes. -/
abbrev GoString := List Byte

/-- Go's `byte(n)` conversion: truncation to eight bits. -/
def byte (n : Nat) : Byte := ⟨n % 256, Nat.mod_lt n (by decide)⟩

/-- The rune `utf8.RuneError` (U+FFFD). -/
def RuneError : Nat := 0xFFFD

/-- Is `b` a UTF-8 continuation byte (`0x80 .. 0xBF`)? -/
def isCont (b : Byte) : Bool := decide (0x80 ≤ b.val) && decide (b.val ≤ 0xBF)

/-- Lowest second byte that `utf8.DecodeRune` accepts after the lead byte `p0`
(the `acceptRanges` table of package `unicode/utf8`). -/
def acceptLo (p0 : Byte) : Nat :=
  if p0.val = 0xE0 then 0xA0 else if p0.val = 0xF0 then 0x90 else 0x80

/-- Highest second byte that `utf8.DecodeRune` accepts after the lead byte `p0`. -/
def acceptHi (p0 : Byte) : Nat :=
  if p0.val = 0xED then 0x9F else if p0.val = 0xF4 then 0x8F else 0xBF

/-- Model of `utf8.DecodeRune`: the first rune of `s` and its width in bytes. An
encoding that is invalid or cut short gives `(RuneError, 1)`, the empty input
`(RuneError, 0)`. The bit masks and shifts of the library are written as `%`, `*`
and `+`. -/
def decodeRune : GoString → Nat × Nat
  | [] => (RuneError, 0)
  | p0 :: rest =>
    if p0.val < 0x80 then (p0.val, 1)
    else if 0xC2 ≤ p0.val ∧ p0.val ≤ 0xDF then
      match rest with
      | b1 :: _ =>
        if isCont b1 then (p0.val % 32 * 64 + b1.val % 64, 2) else (RuneError, 1)
      | [] => (RuneError, 1)
    else if 0xE0 ≤ p0.val ∧ p0.val ≤ 0xEF then
      match rest with
      | b1 :: b2 :: _ =>
        if acceptLo p0 ≤ b1.val ∧ b1.val ≤ acceptHi p0 ∧ isCont b2 = true then
          (p0.val % 16 * 4096 + b1.val % 64 * 64 + b2.val % 64, 3)
        else (RuneError, 1)
      | _ => (RuneError, 1)
    else if 0xF0 ≤ p0.val ∧ p0.val ≤ 0xF4 then
      match rest with
      | b1 :: b2 :: b3 :: _ =>
        if acceptLo p0 ≤ b1.val ∧ b1.val ≤ acceptHi p0 ∧ isCont b2 = true
            ∧ isCont b3 = true then
          (p0.val % 8 * 262144 + b1.val % 64 * 4096 + b2.val % 64 * 64 + b3.val % 64, 4)
        else (RuneError, 1)
      | _ => (RuneError, 1)
    else (RuneError, 1)

/-- Model of `utf8.EncodeRune` (`utf8.AppendRune`): the UTF-8 encoding of the rune
`r`; a surrogate or a value past U+10FFFF is encoded as U+FFFD. -/
def encodeRune (r : Nat) : GoString :=
  if r ≤ 0x7F then [byte r]
  else if r ≤ 0x7FF then [byte (0xC0 + r / 64), byte (0x80 + r % 64)]
  else if 0x10FFFF < r ∨ (0xD800 ≤ r ∧ r ≤ 0xDFFF) then [0xEF, 0xBF, 0xBD]
  else if r ≤ 0xFFFF then
    [byte (0xE0 + r / 4096), byte (0x80 + r / 64 % 64), byte (0x80 + r % 64)]
  else
    [byte (0xF0 + r / 262144), byte (0x80 + r / 4096 % 64), byte (0x80 + r / 64 % 64),
      byte (0x80 + r % 64)]

/-- The bytes of a string literal of the Go source: the UTF-8 encoding of its
characters. -/
def str (s : String) : GoString :=
  (s.data.map (fun c => encodeRune c.toNat)).flatten

/-- Walk `s` rune by rune, at most `fuel` runes: is every rune well encoded? -/
def validUTF8Aux : Nat → GoString → Bool
  | _, [] => true
  | 0, _ :: _ => false
  | fuel + 1, b :: rest =>
    let d := decodeRune (b :: rest)
    if d.1 = RuneError ∧ d.2 = 1 then false
    else validUTF8Aux fuel ((b :: rest).drop d.2)

/-- Model of `utf8.ValidString`. -/
def validUTF8 (s : GoString) : Bool := validUTF8Aux s.length s

/-! ## `strconv` -/

/-- Decimal digits of `n`, most significant first, put in front of `acc`. -/
def digitsAux : Nat → Nat → GoString → GoString
  | 0, _, acc => acc
  | fuel + 1, n, acc =>
    if n < 10 then byte (0x30 + n) :: acc
    else digitsAux fuel (n / 10) (byte (0x30 + n % 10) :: acc)

/-- Decimal text of a natural number. -/
def formatNat (n : Nat) : GoString := digitsAux (n + 1) n []

/-- Model of `strconv.Itoa`. -/
def Itoa (i : Int) : GoString :=
  if i < 0 then 0x2D :: formatNat i.natAbs else formatNat i.toNat

/-- Is `b` an ASCII decimal digit? -/
def isDigit (b : Byte) : Bool := decide (0x30 ≤ b.val) && decide (b.val ≤ 0x39)

/-- Value of a run of decimal digits, `acc` being the value read so far; `none` when
a byte is no digit. -/
def parseDigits : GoString → Nat → Option Nat
  | [], acc => some acc
  | b :: rest, acc =>
    if isDigit b then parseDigits rest (acc * 10 + (b.val - 0x30)) else none

/-- Model of `strconv.ParseInt(s, 10, 64)` on the text of a JSON number: an optional
minus sign and decimal digits, the value within the range of `int64`. -/
def parseInt64 (s : GoString) : Option Int :=
  match s with
  | [] => none
  | b :: rest =>
    if b.val = 0x2D then
      match rest with
      | [] => none
      | _ :: _ =>
        match parseDigits rest 0 with
        | some n => if n ≤ 2 ^ 63 then some (-(n : Int)) else none
        | none => none
    else
      match parseDigits (b :: rest) 0 with
      | some n => if n < 2 ^ 63 then some (n : Int) else none
      | none => none

/-! ## The token record and `json.Marshal` -/

/-- The record `GetTokenResponse` of the source. `ExpiresIn` is a Go `int`. -/
structure GetTokenResponse where
  AccessToken : GoString
  RefreshToken : GoString
  ExpiresIn : Int
  TokenType : GoString
  deriving DecidableEq

/-- The zero value of `GetTokenResponse`. -/
def GetTokenResponse.zero : GetTokenResponse := ⟨[], [], 0, []⟩

/-- The digit `"0123456789abcdef"[n]`. -/
def hexDigit (n : Nat) : Byte := byte (if n < 10 then 0x30 + n else 0x57 + n)

/-- The table `htmlSafeSet` of `encoding/json`, on ASCII bytes: the bytes that
`json.Marshal` copies unescaped. -/
def htmlSafe (b : Byte) : Bool :=
  decide (0x20 ≤ b.val) && decide (b.val ≠ 0x22) && decide (b.val ≠ 0x5C)
    && decide (b.val ≠ 0x3C) && decide (b.val ≠ 0x3E) && decide (b.val ≠ 0x26)

/-- How `json.Marshal` writes an ASCII byte that is not in `htmlSafeSet`. -/
def escapeByte (b : Byte) : GoString :=
  if b.val = 0x5C ∨ b.val = 0x22 then [0x5C, b]
  else if b.val = 0x08 then [0x5C, 0x62]
  else if b.val = 0x0C then [0x5C, 0x66]
  else if b.val = 0x0A then [0x5C, 0x6E]
  else if b.val = 0x0D then [0x5C, 0x72]
  else if b.val = 0x09 then [0x5C, 0x74]
  else [0x5C, 0x75, 0x30, 0x30, hexDigit (b.val / 16), hexDigit (b.val % 16)]

/-- The loop of `appendString` of `encoding/json` (with `escapeHTML`), one rune per
step: the text written between the quotes for the string `s`. -/
def appendStringBody : Nat → GoString → GoString
  | _, [] => []
  | 0, _ :: _ => []
  | fuel + 1, b :: rest =>
    if b.val < 0x80 then
      (if htmlSafe b then [b] else escapeByte b) ++ appendStringBody fuel rest
    else
      let d := decodeRune (b :: rest)
      if d.1 = RuneError ∧ d.2 = 1 then
        [0x5C, 0x75, 0x66, 0x66, 0x66, 0x64] ++ appendStringBody fuel rest
      else if d.1 = 0x2028 ∨ d.1 = 0x2029 then
        [0x5C, 0x75, 0x32, 0x30, 0x32, hexDigit (d.1 % 16)]
          ++ appendStringBody fuel ((b :: rest).drop d.2)
      else
        (b :: rest).take d.2 ++ appendStringBody fuel ((b :: rest).drop d.2)

/-- Model of `appendString` of `encoding/json`: the JSON string literal for `s`. -/
def appendString (s : GoString) : GoString :=
  0x22 :: (appendStringBody s.length s ++ [0x22])

/-- Model of `json.Marshal(t)` for a `*GetTokenResponse`: one object, the four fields
in declaration order under their `json` tags. -/
def jsonMarshal (t : GetTokenResponse) : GoString :=
  str "\x7b\"access_token\":" ++ appendString t.AccessToken
    ++ str ",\"refresh_token\":" ++ appendString t.RefreshToken
    ++ str ",\"expires_in\":" ++ Itoa t.ExpiresIn
    ++ str ",\"token_type\":" ++ appendString t.TokenType
    ++ str "\x7d"

/-! ## `json.Unmarshal` -/

/-- A JSON document as `encoding/json` reads it: a string holds its unquoted bytes,
a number its text. -/
inductive JSON where
  | null
  | bool (b : Bool)
  | num (lit : GoString)
  | str (s : GoString)
  | arr (xs : List JSON)
  | obj (members : List (GoString × JSON))

/-- JSON white space: space, tab, carriage return, line feed. -/
def isSpace (b : Byte) : Bool :=
  decide (b.val = 0x20) || decide (b.val = 0x09) || decide (b.val = 0x0D)
    || decide (b.val = 0x0A)

/-- Drop leading white space. -/
def skipSpace : GoString → GoString
  | [] => []
  | b :: rest => if isSpace b then skipSpace rest else b :: rest

/-- Value of a hexadecimal digit of either case. -/
def hexVal (b : Byte) : Option Nat :=
  if 0x30 ≤ b.val ∧ b.val ≤ 0x39 then some (b.val - 0x30)
  else if 0x61 ≤ b.val ∧ b.val ≤ 0x66 then some (b.val - 0x57)
  else if 0x41 ≤ b.val ∧ b.val ≤ 0x46 then some (b.val - 0x37)
  else none

/-- Value of the four hexadecimal digits at the head of `s`. -/
def hex4 : GoString → Option Nat
  | a :: b :: c :: d :: _ =>
    match hexVal a, hexVal b, hexVal c, hexVal d with
    | some x, some y, some z, some w => some (x * 4096 + y * 256 + z * 16 + w)
    | _, _, _, _ => none
  | _ => none

/-- Model of `getu4` of `encoding/json`: the value of an escape `\uXXXX` at the head
of `s`. -/
def getu4 : GoString → Option Nat
  | b0 :: b1 :: rest => if b0.val = 0x5C ∧ b1.val = 0x75 then hex4 rest else none
  | _ => none

/-- Model of `utf16.DecodeRune`: the rune of a surrogate pair, U+FFFD when the pair
is not one. -/
def utf16DecodeRune (r1 r2 : Nat) : Nat :=
  if 0xD800 ≤ r1 ∧ r1 < 0xDC00 ∧ 0xDC00 ≤ r2 ∧ r2 < 0xE000 then
    (r1 - 0xD800) * 1024 + (r2 - 0xDC00) + 0x10000
  else RuneError

/-- A JSON string literal after its opening quote, as the scanner of `encoding/json`
delimits it and `unquote` decodes it: the unquoted bytes (appended to `acc`) and the
input left after the closing quote. Escapes are decoded, an unpaired surrogate escape
and every byte that is not well-formed UTF-8 become U+FFFD; a raw control character,
an unknown escape or a missing closing quote is an error. One rune or escape per
unit of `fuel`. -/
def parseStringBody : Nat → GoString → GoString → Option (GoString × GoString)
  | 0, _, _ => none
  | _ + 1, [], _ => none
  | fuel + 1, c :: rest, acc =>
    if c.val = 0x22 then some (acc, rest)
    else if c.val = 0x5C then
      match rest with
      | [] => none
      | e :: rest2 =>
        if e.val = 0x22 ∨ e.val = 0x5C ∨ e.val = 0x2F then
          parseStringBody fuel rest2 (acc ++ [e])
        else if e.val = 0x62 then parseStringBody fuel rest2 (acc ++ [0x08])
        else if e.val = 0x66 then parseStringBody fuel rest2 (acc ++ [0x0C])
        else if e.val = 0x6E then parseStringBody fuel rest2 (acc ++ [0x0A])
        else if e.val = 0x72 then parseStringBody fuel rest2 (acc ++ [0x0D])
        else if e.val = 0x74 then parseStringBody fuel rest2 (acc ++ [0x09])
        else if e.val = 0x75 then
          match hex4 rest2 with
          | none => none
          | some rr =>
            let rest3 := rest2.drop 4
            if 0xD800 ≤ rr ∧ rr < 0xE000 then
              match getu4 rest3 with
              | some rr1 =>
                if utf16DecodeRune rr rr1 ≠ RuneError then
                  parseStringBody fuel (rest3.drop 6)
                    (acc ++ encodeRune (utf16DecodeRune rr rr1))
                else parseStringBody fuel rest3 (acc ++ encodeRune RuneError)
              | none => parseStringBody fuel rest3 (acc ++ encodeRune RuneError)
            else parseStringBody fuel rest3 (acc ++ encodeRune rr)
        else none
    else if c.val < 0x20 then none
    else if c.val < 0x80 then parseStringBody fuel rest (acc ++ [c])
    else
      let d := decodeRune (c :: rest)
      parseStringBody fuel ((c :: rest).drop d.2) (acc ++ encodeRune d.1)

/-- A JSON string literal after its opening quote. -/
def parseString (s : GoString) : Option (GoString × GoString) :=
  parseStringBody (s.length + 1) s []

/-- The longest run of decimal digits at the head of `s`, and what follows it. -/
def takeDigits : GoString → GoString × GoString
  | [] => ([], [])
  | b :: rest =>
    if isDigit b then ((b :: (takeDigits rest).1), (takeDigits rest).2)
    else ([], b :: rest)

/-- Optional exponent of a JSON number: `e` or `E`, an optional sign, digits. -/
def scanExponent (s : GoString) : Option (GoString × GoString) :=
  match s with
  | e :: rest =>
    if e.val = 0x65 ∨ e.val = 0x45 then
      match rest with
      | sg :: rest2 =>
        if sg.val = 0x2B ∨ sg.val = 0x2D then
          (if (takeDigits rest2).1 = [] then none
           else some (e :: sg :: (takeDigits rest2).1, (takeDigits rest2).2))
        else
          (if (takeDigits rest).1 = [] then none
           else some (e :: (takeDigits rest).1, (takeDigits rest).2))
      | [] => none
    else some ([], s)
  | [] => some ([], s)

/-- Optional fraction of a JSON number: a point and digits. -/
def scanFraction (s : GoString) : Option (GoString × GoString) :=
  match s with
  | p :: rest =>
    if p.val = 0x2E then
      (if (takeDigits rest).1 = [] then none
       else some (p :: (takeDigits rest).1, (takeDigits rest).2))
    else some ([], s)
  | [] => some ([], s)

/-- The integer part of a JSON number: `0`, or a non-zero digit and more digits. -/
def scanIntPart (s : GoString) : Option (GoString × GoString) :=
  match s with
  | d :: rest =>
    if d.val = 0x30 then some ([d], rest)
    else if 0x31 ≤ d.val ∧ d.val ≤ 0x39 then
      some (d :: (takeDigits rest).1, (takeDigits rest).2)
    else none
  | [] => none

/-- The text of the JSON number at the head of `s` (the scanner states `stateNeg`,
`state0`, `state1`, `stateDot`, `stateE` of `encoding/json`) and the input after it. -/
def scanNumber (s : GoString) : Option (GoString × GoString) :=
  let sign : GoString := match s with
    | b :: _ => if b.val = 0x2D then [b] else []
    | [] => []
  match scanIntPart (s.drop sign.length) with
  | none => none
  | some (ip, s1) =>
    match scanFraction s1 with
    | none => none
    | some (fp, s2) =>
      match scanExponent s2 with
      | none => none
      | some (ep, s3) => some (sign ++ ip ++ fp ++ ep, s3)

/-- If `s` starts with `lit`, the rest of `s`. -/
def stripLit (lit s : GoString) : Option GoString :=
  if lit.isPrefixOf s then some (s.drop lit.length) else none

/-- The constant `maxNestingDepth` of `encoding/json`. -/
def maxNestingDepth : Nat := 10000

mutual

/-- The JSON value at the head of `s` (no leading white space) and the input after
it; `depth` counts the objects and arrays around it. -/
def parseValue : Nat → Nat → GoString → Option (JSON × GoString)
  | 0, _, _ => none
  | _ + 1, _, [] => none
  | fuel + 1, depth, c :: rest =>
    if c.val = 0x7B then
      if maxNestingDepth ≤ depth then none
      else
        match skipSpace rest with
        | [] => none
        | d :: rest2 =>
          if d.val = 0x7D then some (JSON.obj [], rest2)
          else parseMembers fuel (depth + 1) (d :: rest2) []
    else if c.val = 0x5B then
      if maxNestingDepth ≤ depth then none
      else
        match skipSpace rest with
        | [] => none
        | d :: rest2 =>
          if d.val = 0x5D then some (JSON.arr [], rest2)
          else parseElements fuel (depth + 1) (d :: rest2) []
    else if c.val = 0x22 then
      match parseString rest with
      | some (x, r) => some (JSON.str x, r)
      | none => none
    else if c.val = 0x74 then
      match stripLit [0x72, 0x75, 0x65] rest with
      | some r => some (JSON.bool true, r)
      | none => none
    else if c.val = 0x66 then
      match stripLit [0x61, 0x6C, 0x73, 0x65] rest with
      | some r => some (JSON.bool false, r)
      | none => none
    else if c.val = 0x6E then
      match stripLit [0x75, 0x6C, 0x6C] rest with
      | some r => some (JSON.null, r)
      | none => none
    else
      match scanNumber (c :: rest) with
      | some (lit, r) => some (JSON.num lit, r)
      | none => none

/-- The members of an object from the opening quote of a key on, up to the closing
brace; `acc` holds the members read so far. -/
def parseMembers : Nat → Nat → GoString → List (GoString × JSON) →
    Option (JSON × GoString)
  | 0, _, _, _ => none
  | _ + 1, _, [], _ => none
  | fuel + 1, depth, q :: rest, acc =>
    if q.val ≠ 0x22 then none
    else
      match parseString rest with
      | none => none
      | some (key, r1) =>
        match skipSpace r1 with
        | [] => none
        | colon :: r2 =>
          if colon.val ≠ 0x3A then none
          else
            match parseValue fuel depth (skipSpace r2) with
            | none => none
            | some (v, r3) =>
              match skipSpace r3 with
              | [] => none
              | sep :: r4 =>
                if sep.val = 0x2C then
                  parseMembers fuel depth (skipSpace r4) (acc ++ [(key, v)])
                else if sep.val = 0x7D then some (JSON.obj (acc ++ [(key, v)]), r4)
                else none

/-- The elements of an array from the first byte of an element on, up to the closing
bracket; `acc` holds the elements read so far. -/
def parseElements : Nat → Nat → GoString → List JSON → Option (JSON × GoString)
  | 0, _, _, _ => none
  | fuel + 1, depth, s, acc =>
    match parseValue fuel depth s with
    | none => none
    | some (v, r1) =>
      match skipSpace r1 with
      | [] => none
      | sep :: r2 =>
        if sep.val = 0x2C then parseElements fuel depth (skipSpace r2) (acc ++ [v])
        else if sep.val = 0x5D then some (JSON.arr (acc ++ [v]), r2)
        else none

end

/-- The whole input as one JSON document: white space, a value, white space. This is
the language that `checkValid` of `encoding/json` accepts. -/
def parseJSON (data : GoString) : Option JSON :=
  match parseValue (data.length + 1) 0 (skipSpace data) with
  | some (v, rest) => if skipSpace rest = [] then some v else none
  | none => none

/-! ## Errors -/

deriving instance DecidableEq for Except

/-- Error numbers of the system calls the program makes. -/
inductive Errno where
  | ENOENT
  | EACCES
  | EISDIR
  | ENOSPC
  deriving DecidableEq

/-- The error values the program handles. An error is kept as a value; its text is
what Go prints for it. -/
inductive Error where
  /-- The error made on line 43: `"token is empty: not writing to file (%+v)"`. -/
  | tokenEmpty (t : GetTokenResponse)
  /-- The error made on line 132: `"does the file (%s) exist? %v"`, with the path and
  the error of `os.Stat`. -/
  | doesTheFileExist (filePath : GoString) (cause : Errno)
  /-- An `*os.PathError` of `os.Open`, `os.OpenFile`, a read or a write. -/
  | pathError (op : GoString) (path : GoString) (errno : Errno)
  /-- A `*json.SyntaxError`: the input is not a JSON document. -/
  | badJSON
  /-- A `*json.UnmarshalTypeError`: a JSON value of kind `value` does not fit the Go
  type `goType` of the target. -/
  | unmarshalType (value : GoString) (goType : GoString)
  /-- The error of `http.Client.Do`. -/
  | transport (reason : GoString)
  /-- The error of reading a response body. -/
  | bodyRead (reason : GoString)
  deriving DecidableEq

/-! ## Decoding into the record -/

/-- The fields of `GetTokenResponse`. -/
inductive Field where
  | accessToken
  | refreshToken
  | expiresIn
  | tokenType
  deriving DecidableEq

/-- Model of `foldRune` of `encoding/json` as far as it can produce an ASCII rune:
U+017F folds to `S` and U+212A to `K`; every other rune past ASCII folds to a rune
past ASCII and is left as it is. -/
def foldRune (r : Nat) : Nat :=
  if r = 0x17F then 0x53 else if r = 0x212A then 0x4B else r

/-- Model of `foldName` of `encoding/json`, one rune per unit of `fuel`: ASCII
letters in upper case, other runes folded by `foldRune`. -/
def foldNameAux : Nat → GoString → GoString
  | _, [] => []
  | 0, _ :: _ => []
  | fuel + 1, c :: rest =>
    if c.val < 0x80 then
      (if 0x61 ≤ c.val ∧ c.val ≤ 0x7A then byte (c.val - 0x20) else c)
        :: foldNameAux fuel rest
    else
      let d := decodeRune (c :: rest)
      encodeRune (foldRune d.1) ++ foldNameAux fuel ((c :: rest).drop d.2)

/-- Model of `foldName` of `encoding/json`. -/
def foldName (s : GoString) : GoString := foldNameAux s.length s

/-- The field an object key selects: the one whose `json` tag equals the key up to
case folding; a key that selects none is skipped with its value. -/
def fieldOf (key : GoString) : Option Field :=
  if foldName key = foldName (str "access_token") then some Field.accessToken
  else if foldName key = foldName (str "refresh_token") then some Field.refreshToken
  else if foldName key = foldName (str "expires_in") then some Field.expiresIn
  else if foldName key = foldName (str "token_type") then some Field.tokenType
  else none

/-- The word `encoding/json` uses for the kind of a JSON value in an
`UnmarshalTypeError`. -/
def jsonKind : JSON → GoString
  | JSON.null => str "null"
  | JSON.bool _ => str "bool"
  | JSON.num lit => str "number " ++ lit
  | JSON.str _ => str "string"
  | JSON.arr _ => str "array"
  | JSON.obj _ => str "object"

/-- Store a JSON value into a field of type `string`: a string is stored, `null`
leaves the field alone, anything else is a type error and leaves the field alone. -/
def storeString (v : JSON) (old : GoString) : GoString × Option Error :=
  match v with
  | JSON.str x => (x, none)
  | JSON.null => (old, none)
  | w => (old, some (Error.unmarshalType (jsonKind w) (str "string")))

/-- Store a JSON value into a field of type `int`: a number whose text
`strconv.ParseInt` accepts is stored, `null` leaves the field alone, anything else
(a number with a fraction or an exponent or out of range too) is a type error and
leaves the field alone. -/
def storeInt (v : JSON) (old : Int) : Int × Option Error :=
  match v with
  | JSON.num lit =>
    match parseInt64 lit with
    | some n => (n, none)
    | none => (old, some (Error.unmarshalType (jsonKind v) (str "int")))
  | JSON.null => (old, none)
  | w => (old, some (Error.unmarshalType (jsonKind w) (str "int")))

/-- Keep the first error, as `saveError` of `encoding/json` does. -/
def saveError (saved new : Option Error) : Option Error :=
  match saved with
  | some e => some e
  | none => new

/-- Decode one object member into the record. -/
def storeMember (st : GetTokenResponse × Option Error) (m : GoString × JSON) :
    GetTokenResponse × Option Error :=
  match fieldOf m.1 with
  | none => st
  | some Field.accessToken =>
    ({ st.1 with AccessToken := (storeString m.2 st.1.AccessToken).1 },
      saveError st.2 (storeString m.2 st.1.AccessToken).2)
  | some Field.refreshToken =>
    ({ st.1 with RefreshToken := (storeString m.2 st.1.RefreshToken).1 },
      saveError st.2 (storeString m.2 st.1.RefreshToken).2)
  | some Field.expiresIn =>
    ({ st.1 with ExpiresIn := (storeInt m.2 st.1.ExpiresIn).1 },
      saveError st.2 (storeInt m.2 st.1.ExpiresIn).2)
  | some Field.tokenType =>
    ({ st.1 with TokenType := (storeString m.2 st.1.TokenType).1 },
      saveError st.2 (storeString m.2 st.1.TokenType).2)

/-- Decode a JSON document into a nil `*GetTokenResponse`: `null` leaves the pointer
nil; an object allocates a record and stores its members in order; any other value
allocates a zero record and reports a type error. -/
def decodeToken (v : JSON) : Option GetTokenResponse × Option Error :=
  match v with
  | JSON.null => (none, none)
  | JSON.obj members =>
    (some (members.foldl storeMember (GetTokenResponse.zero, none)).1,
      (members.foldl storeMember (GetTokenResponse.zero, none)).2)
  | w => (some GetTokenResponse.zero,
      some (Error.unmarshalType (jsonKind w) (str "main.GetTokenResponse")))

/-- Model of `json.Unmarshal(data, &token)` for a nil `token *GetTokenResponse`: the
pointer afterwards (`none` is nil) and the error. Input that is not a JSON document
is a syntax error and leaves the pointer nil. -/
def jsonUnmarshal (data : GoString) : Option GetTokenResponse × Option Error :=
  match parseJSON data with
  | none => (none, some Error.badJSON)
  | some v => decodeToken v

/-! ## `net/url` and `encoding/base64` -/

/-- The digit `"0123456789ABCDEF"[n]`. -/
def upperHexDigit (n : Nat) : Byte := byte (if n < 10 then 0x30 + n else 0x37 + n)

/-- Model of `shouldEscape(c, encodeQueryComponent)` of `net/url`: everything but
letters, digits, `-`, `_`, `.` and `~` is escaped. -/
def shouldEscape (c : Byte) : Bool :=
  !((decide (0x61 ≤ c.val) && decide (c.val ≤ 0x7A))
    || (decide (0x41 ≤ c.val) && decide (c.val ≤ 0x5A))
    || (decide (0x30 ≤ c.val) && decide (c.val ≤ 0x39))
    || decide (c.val = 0x2D) || decide (c.val = 0x5F) || decide (c.val = 0x2E)
    || decide (c.val = 0x7E))

/-- Model of `url.QueryEscape`: a space becomes `+`, any other escaped byte `%XX`. -/
def QueryEscape : GoString → GoString
  | [] => []
  | c :: rest =>
    (if shouldEscape c then
      (if c.val = 0x20 then [0x2B]
       else [0x25, upperHexDigit (c.val / 16), upperHexDigit (c.val % 16)])
     else [c]) ++ QueryEscape rest

/-- Byte-wise lexicographic order of Go strings (`<=` on `string`). -/
def strLe : GoString → GoString → Bool
  | [], _ => true
  | _ :: _, [] => false
  | a :: s, b :: t => if a.val < b.val then true else if b.val < a.val then false else strLe s t

/-- Model of `url.Values`: a map from a key to its values, kept as a list with one
entry per key. -/
abbrev Values := List (GoString × List GoString)

/-- Model of `Values.Set`: the key gets the single value `value`. -/
def Values.Set (v : Values) (key value : GoString) : Values :=
  if v.any (fun e => decide (e.1 = key)) then
    v.map (fun e => if e.1 = key then (key, [value]) else e)
  else v ++ [(key, [value])]

/-- Model of `Values.Get`: the first value of the key, the empty string when there
is none. -/
def Values.Get (v : Values) (key : GoString) : GoString :=
  match v.lookup key with
  | some (x :: _) => x
  | _ => []

/-- The pairs `key=value` of one key, both escaped. -/
def encodePairs (e : GoString × List GoString) : List GoString :=
  e.2.map (fun x => QueryEscape e.1 ++ [0x3D] ++ QueryEscape x)

/-- Model of `Values.Encode`: the pairs `key=value` sorted by key and joined
by `&`. -/
def Values.Encode (v : Values) : GoString :=
  List.intercalate [0x26]
    ((v.insertionSort (fun a b => strLe a.1 b.1 = true)).map encodePairs).flatten

/-- The character of the standard base64 alphabet for the six-bit value `n`. -/
def b64Char (n : Nat) : Byte :=
  byte (if n < 26 then 0x41 + n else if n < 52 then 0x47 + n
    else if n < 62 then n - 4 else if n = 62 then 0x2B else 0x2F)

/-- Model of `base64.StdEncoding.EncodeToString`: standard alphabet, padded. -/
def base64Encode : GoString → GoString
  | [] => []
  | [a] => [b64Char (a.val / 4), b64Char (a.val % 4 * 16), 0x3D, 0x3D]
  | [a, b] =>
    [b64Char (a.val / 4), b64Char (a.val % 4 * 16 + b.val / 16),
      b64Char (b.val % 16 * 4), 0x3D]
  | a :: b :: c :: rest =>
    [b64Char (a.val / 4), b64Char (a.val % 4 * 16 + b.val / 16),
      b64Char (b.val % 16 * 4 + c.val / 64), b64Char (c.val % 64)] ++ base64Encode rest

/-! ## `fmt.Printf` without operands -/

/-- Is `c` one of the flags `#`, `0`, `+`, `-` and space of a format verb? -/
def isFlag (c : Byte) : Bool :=
  decide (c.val = 0x23) || decide (c.val = 0x30) || decide (c.val = 0x2B)
    || decide (c.val = 0x2D) || decide (c.val = 0x20)

/-- Drop the flags of a verb. Without operands the flags change nothing printed. -/
def skipFlags : GoString → GoString
  | [] => []
  | c :: rest => if isFlag c then skipFlags rest else c :: rest

/-- Model of `parsenum` of `fmt` on the text `s` up to its end: was a number read,
and the input after it. `num` is the value read so far. Without a digit left to read
at the end of the input, and on a number past `1e6`, the function gives up and moves
to the end. -/
def parsenumAux : GoString → Nat → Bool → Bool × GoString
  | [], _, isnum => (isnum, [])
  | c :: rest, num, isnum =>
    if isDigit c then
      (if 1000000 < num then (false, [])
       else parsenumAux rest (num * 10 + (c.val - 0x30)) true)
    else (isnum, c :: rest)

/-- Model of `parsenum(format, i, end)` of `fmt`, the input from `i` on given
as `s`. -/
def parsenum (s : GoString) : Bool × GoString := parsenumAux s 0 false

/-- Model of `argNumber` of `fmt` when there is no operand: a bracketed argument
index `[n]` at the head of `s`. Gives the input after it, whether an index was found
(`afterIndex`) and whether the verb is still good (`goodArgNum`): with no operand
every index is out of range. -/
def argNumber (s : GoString) : GoString × Bool × Bool :=
  match s with
  | [] => (s, false, true)
  | c :: rest =>
    if c.val ≠ 0x5B then (s, false, true)
    else if s.length < 3 then (rest, false, false)
    else
      match rest.indexOf? (0x5D : Byte) with
      | none => (rest, false, false)
      | some k =>
        let inner := rest.take k
        let r := parsenum inner
        (rest.drop (k + 1), decide (r.1 = true ∧ r.2 = [] ∧ inner ≠ []), false)

/-- Model of `doPrintf` of `fmt` with a format and no operand, one verb per unit of
`fuel`: text is copied, `%%` prints `%`, every other verb prints `%!v(MISSING)` (or
`%!v(BADINDEX)` after an argument index), `*` prints `%!(BADWIDTH)` or
`%!(BADPREC)`, a format that ends inside a verb prints `%!(NOVERB)`. -/
def doPrintf : Nat → GoString → GoString
  | _, [] => []
  | 0, _ :: _ => []
  | fuel + 1, c :: rest =>
    if c.val ≠ 0x25 then c :: doPrintf fuel rest
    else
      let a1 := argNumber (skipFlags rest)
      let s1 := a1.1
      -- width
      let wStar := decide (s1.head? = some (0x2A : Byte))
      let pw := parsenum s1
      let s2 := if wStar then s1.drop 1 else pw.2
      let out1 : GoString := if wStar then str "%!(BADWIDTH)" else []
      let after1 := if wStar then false else a1.2.1
      let good1 := if wStar then a1.2.2 else (a1.2.2 && !(a1.2.1 && pw.1))
      -- precision
      let hasDot := decide (s2.head? = some (0x2E : Byte))
      let a2 := argNumber (s2.drop 1)
      let pStar := decide (a2.1.head? = some (0x2A : Byte))
      let s3 := if hasDot then (if pStar then a2.1.drop 1 else (parsenum a2.1).2) else s2
      let out2 : GoString := if hasDot && pStar then str "%!(BADPREC)" else []
      let after2 := if hasDot then (if pStar then false else a2.2.1) else after1
      let good2 := if hasDot then (good1 && !after1 && a2.2.2) else good1
      -- a last argument index
      let a3 := argNumber s3
      let s4 := if after2 then s3 else a3.1
      let good3 := if after2 then good2 else (good2 && a3.2.2)
      match s4 with
      | [] => out1 ++ out2 ++ str "%!(NOVERB)"
      | v :: rest4 =>
        let d := if v.val < 0x80 then (v.val, 1) else decodeRune (v :: rest4)
        let tail := doPrintf fuel ((v :: rest4).drop d.2)
        if d.1 = 0x25 then out1 ++ out2 ++ [0x25] ++ tail
        else if good3 then
          out1 ++ out2 ++ str "%!" ++ encodeRune d.1 ++ str "(MISSING)" ++ tail
        else out1 ++ out2 ++ str "%!" ++ encodeRune d.1 ++ str "(BADINDEX)" ++ tail

/-- Model of the text `fmt.Printf(format)` writes when it is called with a format
and nothing else. -/
def printf0 (format : GoString) : GoString := doPrintf format.length format

/-! ## The world: file system, output, network -/

/-- What lives at a path. -/
structure File where
  /-- What reading the file gives: the bytes of a regular file, or what a device
  hands out (nothing for `/dev/null`). -/
  data : GoString
  /-- Is this a directory? -/
  isDir : Bool
  /-- Is this a device that keeps nothing of what is written (such as `/dev/null`)
  and not a regular file? Opening it with `O_TRUNC` and writing to it succeed. -/
  isDevice : Bool
  /-- May every directory on the way to the path be searched? When not, every system
  call on the path fails with `EACCES`, `stat` too. -/
  canSearch : Bool
  /-- May the process open it for reading? -/
  canRead : Bool
  /-- May the process open it for writing? -/
  canWrite : Bool
  deriving DecidableEq

/-- The file system as the process sees it. -/
structure FS where
  /-- The paths that exist; the first entry of a path counts. -/
  files : List (GoString × File)
  /-- Paths that do not exist and where no file can be made, with the error of the
  attempt (a missing or read-only parent directory). -/
  noCreate : List (GoString × Errno)
  /-- No space left on the device: writing data to a regular file fails. -/
  full : Bool
  /-- Does the umask take the owner's read permission off a file that is made? -/
  umaskRead : Bool
  /-- Does the umask take the owner's write permission off a file that is made? -/
  umaskWrite : Bool
  deriving DecidableEq

/-- The entry at a path. The empty path names nothing. -/
def FS.lookup (fs : FS) (path : GoString) : Option File :=
  if path = [] then none else fs.files.lookup path

/-- Put an entry at a path, in place of the one there. -/
def FS.store (fs : FS) (path : GoString) (f : File) : FS :=
  { fs with files := (path, f) :: fs.files.filter (fun e => decide (e.1 ≠ path)) }

/-- Model of `os.Stat`: the error, if any. -/
def osStat (fs : FS) (path : GoString) : Option Errno :=
  match fs.lookup path with
  | none => some Errno.ENOENT
  | some f => if f.canSearch then none else some Errno.EACCES

/-- Model of `os.Open`: the file opened for reading, or the error. -/
def osOpen (fs : FS) (path : GoString) : Except Errno File :=
  match fs.lookup path with
  | none => Except.error Errno.ENOENT
  | some f =>
    if f.canSearch && f.canRead then Except.ok f else Except.error Errno.EACCES

/-- Model of `ioutil.ReadAll` on an open file: a directory cannot be read; a regular
file gives its bytes, a device what it hands out. -/
def readAll (f : File) : Except Errno GoString :=
  if f.isDir then Except.error Errno.EISDIR else Except.ok f.data

/-- A file as `os.OpenFile` makes it with mode `0644`: an empty regular file whose
permissions are what the umask leaves of the mode. The descriptor that made it can
be written whatever they are. -/
def newFile (fs : FS) : File :=
  { data := [], isDir := false, isDevice := false, canSearch := true,
    canRead := !fs.umaskRead, canWrite := !fs.umaskWrite }

/-- Model of `os.OpenFile(path, os.O_CREATE|os.O_WRONLY|os.O_TRUNC, 0644)`: the file
system after the call, or the error. A path that names nothing gets a new file, a
regular file is emptied, a device is left as it is. -/
def osOpenFile (fs : FS) (path : GoString) : Except Errno FS :=
  if path = [] then Except.error Errno.ENOENT
  else
    match fs.lookup path with
    | none =>
      match fs.noCreate.lookup path with
      | some e => Except.error e
      | none => Except.ok (fs.store path (newFile fs))
    | some f =>
      if !f.canSearch then Except.error Errno.EACCES
      else if f.isDir then Except.error Errno.EISDIR
      else if !f.canWrite then Except.error Errno.EACCES
      else if f.isDevice then Except.ok (fs.store path f)
      else Except.ok (fs.store path { f with data := [] })

/-- Model of `f.Write(bytes)` on the file just opened at `path`: the file system
after the call, or the error. A regular file holds the bytes afterwards, unless the
device has no room; a device takes the bytes and keeps nothing. -/
def fileWrite (fs : FS) (path : GoString) (bytes : GoString) : Except Errno FS :=
  match fs.lookup path with
  | none => Except.error Errno.ENOENT
  | some f =>
    if f.isDevice then Except.ok fs
    else if fs.full && !bytes.isEmpty then Except.error Errno.ENOSPC
    else Except.ok (fs.store path { f with data := bytes })

/-- An HTTP request. -/
structure Request where
  method : GoString
  url : GoString
  header : List (GoString × List GoString)
  body : GoString
  deriving DecidableEq

/-- Model of `http.Header.Add` for a key in canonical form (the three keys of the
program are): the value is appended to the values of the key. -/
def Header.Add (h : List (GoString × List GoString)) (key value : GoString) :
    List (GoString × List GoString) :=
  if h.any (fun e => decide (e.1 = key)) then
    h.map (fun e => if e.1 = key then (key, e.2 ++ [value]) else e)
  else h ++ [(key, [value])]

/-- Model of `http.Header.Get` for a key in canonical form: the first value of the
key, the empty string when there is none. -/
def Header.Get (h : List (GoString × List GoString)) (key : GoString) : GoString :=
  match h.lookup key with
  | some (x :: _) => x
  | _ => []

/-- What the exchange endpoint does with a request. The status code is left out:
the program never looks at it. -/
inductive NetResult where
  /-- The call `httpClient.Do` fails. -/
  | transportError (reason : GoString)
  /-- A response arrives and reading its body fails. -/
  | readError (reason : GoString)
  /-- A response arrives with this body. -/
  | body (bytes : GoString)
  deriving DecidableEq

/-- The input and output operations the process performs, in order. -/
inductive Event where
  | stat (path : GoString)
  | openRead (path : GoString)
  | readAll (path : GoString)
  | openTrunc (path : GoString)
  | write (path : GoString) (data : GoString)
  | httpDo (request : Request)
  deriving DecidableEq

/-- What the process prints on standard output. -/
inductive Output where
  /-- These bytes. -/
  | text (s : GoString)
  /-- The text of `fmt.Printf(pfx + "%v", e)`: `pfx` and the message of the
  error `e`. -/
  | textErr (pfx : GoString) (e : Error)
  deriving DecidableEq

/-- Why `flag.FlagSet.Parse` fails. -/
inductive FlagError where
  | badSyntax (arg : GoString)
  | notDefined (name : GoString)
  | needsArgument (name : GoString)
  | help
  deriving DecidableEq

/-- The state outside the process. -/
structure World where
  fs : FS
  /-- Standard output so far. -/
  stdout : List Output
  /-- Standard error so far: the complaints of package `flag`. -/
  stderr : List FlagError
  /-- The operations performed so far. -/
  log : List Event
  deriving DecidableEq

/-- Write text on standard output. -/
def World.print (w : World) (s : GoString) : World :=
  { w with stdout := w.stdout ++ [Output.text s] }

/-- Write a message and an error on standard output. -/
def World.printErr (w : World) (pfx : GoString) (e : Error) : World :=
  { w with stdout := w.stdout ++ [Output.textErr pfx e] }

/-- Record an operation. -/
def World.record (w : World) (e : Event) : World :=
  { w with log := w.log ++ [e] }

/-- How a piece of the program ends: it returns, the process exits through
`os.Exit`, or the process dies of a nil pointer dereference. -/
inductive Result (α : Type) where
  | ok (a : α) (w : World)
  | exit (code : Nat) (w : World)
  | panic (w : World)
  deriving DecidableEq

/-- The world a piece of the program leaves. -/
def Result.world {α : Type} : Result α → World
  | Result.ok _ w => w
  | Result.exit _ w => w
  | Result.panic w => w

/-- The HTTP requests among the operations performed. -/
def requestsOf : List Event → List Request
  | [] => []
  | Event.httpDo r :: rest => r :: requestsOf rest
  | _ :: rest => requestsOf rest

/-! ## The program -/

/-- The constant `GetTokenURL`. -/
def GetTokenURL : GoString := str "https://api.login.yahoo.com/oauth2/get_token"

/-- The guard of `Write` (line 42): is a required field empty or zero? -/
def GetTokenResponse.isEmpty (t : GetTokenResponse) : Bool :=
  decide (t.RefreshToken = []) || decide (t.AccessToken = []) || decide (t.ExpiresIn = 0)
    || decide (t.TokenType = [])

/-- The method `Write` (lines 40-69) on a record: the error it returns (`none` is
nil) and the world it leaves. -/
def GetTokenResponse.Write (t : GetTokenResponse) (filePath : GoString) (w : World) :
    Option Error × World :=
  if t.isEmpty then (some (Error.tokenEmpty t), w)
  else
    match osOpenFile w.fs filePath with
    | Except.error e =>
      (some (Error.pathError (str "open") filePath e), w.record (Event.openTrunc filePath))
    | Except.ok fs1 =>
      let w1 := { w.record (Event.openTrunc filePath) with fs := fs1 }
      let bytes := jsonMarshal t
      let w2 := w1.print (str "writing token to " ++ filePath ++ str "\n")
      match fileWrite fs1 filePath bytes with
      | Except.error e =>
        (some (Error.pathError (str "write") filePath e),
          w2.record (Event.write filePath bytes))
      | Except.ok fs2 =>
        (none, { w2.record (Event.write filePath bytes) with fs := fs2 })

/-- The text `GetCode` returns for a client id (line 78). -/
def codeLink (clientID : GoString) : GoString :=
  str "Click this link to retrieve a code:\nhttps://api.login.yahoo.com/oauth2/request_auth?client_id="
    ++ clientID ++ str "&redirect_uri=oob&response_type=code\n\n"

/-- The function `GetCode` (lines 73-79). -/
def GetCode (clientID : GoString) (w : World) : Result GoString :=
  if clientID = [] then
    Result.exit 2
      (w.print (printf0 (str "please provide a client id, if you do not have one try create-app")))
  else Result.ok (codeLink clientID) w

/-- The request `GetToken` builds (lines 87-102). -/
def buildRequest (clientID clientSecret : GoString) (values : Values) : Request :=
  let auth := clientID ++ str ":" ++ clientSecret
  let encodedAuth := base64Encode auth
  { method := str "POST"
    url := GetTokenURL
    header :=
      Header.Add
        (Header.Add
          (Header.Add [] (str "Content-Type") (str "application/x-www-form-urlencoded"))
          (str "Authorization") (str "Basic " ++ encodedAuth))
        (str "Content-Length") (Itoa (Values.Encode values).length)
    body := Values.Encode values }

/-- The function `GetToken` (lines 82-124): the pointer and the error it returns, and
the world it leaves. `http.NewRequest` cannot fail on the constant method and URL.
The error of `json.Unmarshal` on line 120 is dropped, as in the source. -/
def GetToken (net : Request → NetResult) (clientID clientSecret : GoString)
    (values : Values) (w : World) : (Option GetTokenResponse × Option Error) × World :=
  let request := buildRequest clientID clientSecret values
  let w1 := w.record (Event.httpDo request)
  match net request with
  | NetResult.transportError reason => ((none, some (Error.transport reason)), w1)
  | NetResult.readError reason => ((none, some (Error.bodyRead reason)), w1)
  | NetResult.body bytes => (((jsonUnmarshal bytes).1, none), w1)

/-- The function `LoadToken` (lines 127-150). -/
def LoadToken (filePath : GoString) (w : World) :
    (Option GetTokenResponse × Option Error) × World :=
  let w1 := w.record (Event.stat filePath)
  match osStat w.fs filePath with
  | some e => ((none, some (Error.doesTheFileExist filePath e)), w1)
  | none =>
    let w2 := w1.record (Event.openRead filePath)
    match osOpen w.fs filePath with
    | Except.error e => ((none, some (Error.pathError (str "open") filePath e)), w2)
    | Except.ok f =>
      let w3 := w2.record (Event.readAll filePath)
      match readAll f with
      | Except.error e => ((none, some (Error.pathError (str "read") filePath e)), w3)
      | Except.ok bytes => (jsonUnmarshal bytes, w3)

/-- The function `lintArgs` (lines 152-162). -/
def lintArgs (clientID clientSecret clientCode : GoString) (checkCode : Bool)
    (w : World) : Result Unit :=
  if clientID = [] ∨ clientSecret = [] then
    Result.exit 2 (w.print (printf0 (str "please provide a client id and a client secret")))
  else if checkCode = true ∧ clientCode = [] then
    Result.exit 2
      (w.print (printf0
        (str "please provide a code to obtain the secret with (did you run get-code?)")))
  else Result.ok () w

/-- The function `help` (lines 165-174). -/
def help (w : World) : Result Unit :=
  Result.exit 2
    (w.print (str "expected some command. available commands:\n  create-app\n  get-code\n  get-token\n  refresh-token\n  show-token"
      ++ str "\n"))

/-- The function `checkEnv` (lines 177-184). -/
def checkEnv (environ : List (GoString × GoString)) (env : GoString) : GoString :=
  match environ.lookup env with
  | some e => e
  | none => []

/-- The four variables of `main` that the flags are bound to. -/
structure Vars where
  clientCode : GoString
  clientID : GoString
  clientSecret : GoString
  tokenFile : GoString
  deriving DecidableEq

/-- The variable a flag is bound to. -/
inductive FlagVar where
  | clientCode
  | clientID
  | clientSecret
  | tokenFile
  deriving DecidableEq

/-- Assign a variable. -/
def Vars.set (v : Vars) (x : FlagVar) (value : GoString) : Vars :=
  match x with
  | FlagVar.clientCode => { v with clientCode := value }
  | FlagVar.clientID => { v with clientID := value }
  | FlagVar.clientSecret => { v with clientSecret := value }
  | FlagVar.tokenFile => { v with tokenFile := value }

/-- The flags of `getCmd` (lines 197-201). -/
def getCmd : List (GoString × FlagVar) :=
  [(str "id", FlagVar.clientID), (str "code", FlagVar.clientCode),
    (str "secret", FlagVar.clientSecret), (str "file", FlagVar.tokenFile)]

/-- The flags of `refreshCmd` (lines 204-207). -/
def refreshCmd : List (GoString × FlagVar) :=
  [(str "id", FlagVar.clientID), (str "secret", FlagVar.clientSecret),
    (str "file", FlagVar.tokenFile)]

/-- The flags of `getCodeCmd` (lines 210-211). -/
def getCodeCmd : List (GoString × FlagVar) := [(str "id", FlagVar.clientID)]

/-- Split `name=value` at the first `=` that is not the first byte. -/
def splitFlag (name : GoString) : GoString × Option GoString :=
  match (name.drop 1).indexOf? (0x3D : Byte) with
  | some k => (name.take (k + 1), some (name.drop (k + 2)))
  | none => (name, none)

/-- Model of `flag.FlagSet.Parse` for a set of string flags (the loop over
`parseOne`): the variables after the flags are read, or the error. -/
def flagParse : Nat → List (GoString × FlagVar) → List GoString → Vars →
    Except FlagError Vars
  | 0, _, _, v => Except.ok v
  | _ + 1, _, [], v => Except.ok v
  | fuel + 1, formal, s :: rest, v =>
    if s.length < 2 ∨ s.head? ≠ some (0x2D : Byte) then Except.ok v
    else
      let numMinuses := if (s.drop 1).head? = some (0x2D : Byte) then 2 else 1
      if numMinuses = 2 ∧ s.length = 2 then Except.ok v
      else
        let name := s.drop numMinuses
        if name = [] ∨ name.head? = some (0x2D : Byte) ∨ name.head? = some (0x3D : Byte) then
          Except.error (FlagError.badSyntax s)
        else
          match formal.lookup (splitFlag name).1 with
          | none =>
            if (splitFlag name).1 = str "help" ∨ (splitFlag name).1 = str "h" then
              Except.error FlagError.help
            else Except.error (FlagError.notDefined (splitFlag name).1)
          | some x =>
            match (splitFlag name).2 with
            | some value => flagParse fuel formal rest (v.set x value)
            | none =>
              match rest with
              | value :: rest2 => flagParse fuel formal rest2 (v.set x value)
              | [] => Except.error (FlagError.needsArgument (splitFlag name).1)

/-- `Parse` of a flag set made with `flag.ExitOnError`: on an error the complaint
goes to standard error and the process exits, with status 0 after `-h` or `-help`
and status 2 otherwise. -/
def parseOrExit (formal : List (GoString × FlagVar)) (arguments : List GoString)
    (v : Vars) (w : World) : Result Vars :=
  match flagParse (arguments.length + 1) formal arguments v with
  | Except.ok v2 => Result.ok v2 w
  | Except.error e =>
    Result.exit (if e = FlagError.help then 0 else 2) { w with stderr := w.stderr ++ [e] }

/-- The variables as the three flag sets leave them before any parsing: each
`StringVar` stores the default, the value of the environment variable (lines
197-211). -/
def initialVars (environ : List (GoString × GoString)) : Vars :=
  { clientCode := checkEnv environ (str "YAHOO_APP_CLIENT_CODE")
    clientID := checkEnv environ (str "YAHOO_APP_CLIENT_ID")
    clientSecret := checkEnv environ (str "YAHOO_APP_CLIENT_SECRET")
    tokenFile := checkEnv environ (str "YAHOO_APP_TOKEN_FILE") }

/-- The form values of the `get-token` case (lines 229-234). -/
def getTokenValues (v : Vars) : Values :=
  Values.Set
    (Values.Set
      (Values.Set
        (Values.Set (Values.Set [] (str "client_id") v.clientID) (str "client_secret")
          v.clientSecret)
        (str "code") v.clientCode)
      (str "grant_type") (str "authorization_code"))
    (str "redirect_uri") (str "oob")

/-- The form values of the `refresh-token` case (lines 258-263). -/
def refreshValues (v : Vars) (oldToken : GetTokenResponse) : Values :=
  Values.Set
    (Values.Set
      (Values.Set
        (Values.Set (Values.Set [] (str "client_id") v.clientID) (str "client_secret")
          v.clientSecret)
        (str "grant_type") (str "refresh_token"))
      (str "redirect_uri") (str "oob"))
    (str "refresh_token") oldToken.RefreshToken

/-- The end of the `get-token` and `refresh-token` cases: the error check after
`GetToken` and the call of `token.Write` (lines 236-246 and 265-275). Calling `Write`
on a nil pointer dereferences it on line 42. -/
def storeToken (errPfx : GoString) (tokenFile : GoString)
    (got : (Option GetTokenResponse × Option Error) × World) : Result Unit :=
  match got.1.2 with
  | some err => Result.ok () (got.2.printErr errPfx err)
  | none =>
    match got.1.1 with
    | none => Result.panic got.2
    | some token =>
      match (token.Write tokenFile got.2).1 with
      | some err =>
        Result.ok () ((token.Write tokenFile got.2).2.printErr (str "error writing token: ") err)
      | none => Result.ok () (token.Write tokenFile got.2).2

/-- The case `get-token` of `main` (lines 225-246). -/
def runGetToken (net : Request → NetResult) (arguments : List GoString) (v : Vars)
    (w : World) : Result Unit :=
  match parseOrExit getCmd arguments v w with
  | Result.exit c w1 => Result.exit c w1
  | Result.panic w1 => Result.panic w1
  | Result.ok v1 w1 =>
    match lintArgs v1.clientID v1.clientSecret v1.clientCode true w1 with
    | Result.exit c w2 => Result.exit c w2
    | Result.panic w2 => Result.panic w2
    | Result.ok _ w2 =>
      storeToken (str "error: ") v1.tokenFile
        (GetToken net v1.clientID v1.clientSecret (getTokenValues v1) w2)

/-- The case `refresh-token` of `main` (lines 248-275). Reading
`oldToken.RefreshToken` of a nil pointer on line 263 is a nil dereference. -/
def runRefreshToken (net : Request → NetResult) (arguments : List GoString) (v : Vars)
    (w : World) : Result Unit :=
  match parseOrExit refreshCmd arguments v w with
  | Result.exit c w1 => Result.exit c w1
  | Result.panic w1 => Result.panic w1
  | Result.ok v1 w1 =>
    match lintArgs v1.clientID v1.clientSecret v1.clientCode false w1 with
    | Result.exit c w2 => Result.exit c w2
    | Result.panic w2 => Result.panic w2
    | Result.ok _ w2 =>
      match (LoadToken v1.tokenFile w2).1.2 with
      | some err =>
        Result.ok () ((LoadToken v1.tokenFile w2).2.printErr (str "error loading token: ") err)
      | none =>
        match (LoadToken v1.tokenFile w2).1.1 with
        | none => Result.panic (LoadToken v1.tokenFile w2).2
        | some oldToken =>
          storeToken (str "error obtaining token: ") v1.tokenFile
            (GetToken net v1.clientID v1.clientSecret (refreshValues v1 oldToken)
              (LoadToken v1.tokenFile w2).2)

/-- The case `get-code` of `main` (lines 222-224): the text `GetCode` returns is the
format of `fmt.Printf`. -/
def runGetCode (arguments : List GoString) (v : Vars) (w : World) : Result Unit :=
  match parseOrExit getCodeCmd arguments v w with
  | Result.exit c w1 => Result.exit c w1
  | Result.panic w1 => Result.panic w1
  | Result.ok v1 w1 =>
    match GetCode v1.clientID w1 with
    | Result.exit c w2 => Result.exit c w2
    | Result.panic w2 => Result.panic w2
    | Result.ok link w2 => Result.ok () (w2.print (printf0 link))

/-- The case `show-token` of `main` (lines 276-283). -/
def runShowToken (v : Vars) (w : World) : Result Unit :=
  match (LoadToken v.tokenFile w).1.2 with
  | some err =>
    Result.ok () ((LoadToken v.tokenFile w).2.printErr (str "error loading token: ") err)
  | none =>
    match (LoadToken v.tokenFile w).1.1 with
    | none => Result.panic (LoadToken v.tokenFile w).2
    | some token => Result.ok () ((LoadToken v.tokenFile w).2.print token.AccessToken)

/-- The function `main` (lines 187-287): `osArgs` is `os.Args`, `environ` the
environment, `net` the exchange endpoint. -/
def main (net : Request → NetResult) (osArgs : List GoString)
    (environ : List (GoString × GoString)) (w : World) : Result Unit :=
  match osArgs with
  | _ :: cmd :: arguments =>
    if cmd = str "create-app" then
      Result.ok ()
        (w.print (printf0
          (str "To create a new Yahoo API app, visit: https://developer.yahoo.com/apps/create/\n\n")))
    else if cmd = str "get-code" then runGetCode arguments (initialVars environ) w
    else if cmd = str "get-token" then runGetToken net arguments (initialVars environ) w
    else if cmd = str "refresh-token" then
      runRefreshToken net arguments (initialVars environ) w
    else if cmd = str "show-token" then runShowToken (initialVars environ) w
    else help w
  | _ => help w

/-! ## Examples and predicates used by the theorems -/

/-- A token file that holds an earlier record. -/
def sampleFile : File :=
  { data := str "old contents", isDir := false, isDevice := false, canSearch := true,
    canRead := true, canWrite := true }

/-- A world with a token file at `token.json`. -/
def sampleWorld : World :=
  { fs :=
      { files := [(str "token.json", sampleFile)]
        noCreate := []
        full := false
        umaskRead := false
        umaskWrite := false }
    stdout := []
    stderr := []
    log := [] }

/-- A world where `token.json` exists in a directory the process may not search. -/
def lockedWorld : World :=
  { fs :=
      { files := [(str "token.json", { sampleFile with canSearch := false })]
        noCreate := []
        full := false
        umaskRead := false
        umaskWrite := false }
    stdout := []
    stderr := []
    log := [] }

/-- A complete command line of `get-token`. -/
def getTokenArgs : List GoString :=
  [str "helper", str "get-token", str "-id", str "id", str "-secret", str "secret",
    str "-code", str "code", str "-file", str "token.json"]

/-- The request that `getTokenArgs` sends. -/
def getTokenRequest : Request :=
  { method := str "POST"
    url := str "https://api.login.yahoo.com/oauth2/get_token"
    header :=
      [(str "Content-Type", [str "application/x-www-form-urlencoded"]),
        (str "Authorization", [str "Basic aWQ6c2VjcmV0"]),
        (str "Content-Length", [str "90"])]
    body :=
      str "client_id=id&client_secret=secret&code=code&grant_type=authorization_code&redirect_uri=oob" }

/-- A world whose token file holds a record. -/
def storedWorld : World :=
  { sampleWorld with
    fs :=
      { files := [(str "token.json",
          { sampleFile with
            data := str "\x7b\"access_token\":\"a\",\"refresh_token\":\"r1\",\"expires_in\":3600,\"token_type\":\"bearer\"\x7d" })]
        noCreate := []
        full := false
        umaskRead := false
        umaskWrite := false } }

/-- The answer of the exchange endpoint in the example of the specification. -/
def sampleBody : GoString :=
  str "\x7b\"access_token\":\"a\",\"refresh_token\":\"r\",\"expires_in\":3600,\"token_type\":\"bearer\"\x7d"

/-- The well-formed encodings of one rune at the head of a string: the lead byte,
the bytes that follow it, the rune and the width. -/
inductive RuneAt : GoString → Nat → Nat → Prop where
  | one (p0 : Byte) (h : p0.val < 0x80) : RuneAt [p0] p0.val 1
  | two (p0 b1 : Byte) (h0 : 0xC2 ≤ p0.val ∧ p0.val ≤ 0xDF)
      (h1 : 0x80 ≤ b1.val ∧ b1.val ≤ 0xBF) :
      RuneAt [p0, b1] (p0.val % 32 * 64 + b1.val % 64) 2
  | three (p0 b1 b2 : Byte) (h0 : 0xE0 ≤ p0.val ∧ p0.val ≤ 0xEF)
      (h1 : acceptLo p0 ≤ b1.val ∧ b1.val ≤ acceptHi p0)
      (h2 : 0x80 ≤ b2.val ∧ b2.val ≤ 0xBF) :
      RuneAt [p0, b1, b2] (p0.val % 16 * 4096 + b1.val % 64 * 64 + b2.val % 64) 3
  | four (p0 b1 b2 b3 : Byte) (h0 : 0xF0 ≤ p0.val ∧ p0.val ≤ 0xF4)
      (h1 : acceptLo p0 ≤ b1.val ∧ b1.val ≤ acceptHi p0)
      (h2 : 0x80 ≤ b2.val ∧ b2.val ≤ 0xBF) (h3 : 0x80 ≤ b3.val ∧ b3.val ≤ 0xBF) :
      RuneAt [p0, b1, b2, b3]
        (p0.val % 8 * 262144 + b1.val % 64 * 4096 + b2.val % 64 * 64 + b3.val % 64) 4

/-- A world whose token file may be written and may not be read. -/
def writeOnlyWorld : World :=
  { sampleWorld with
    fs :=
      { files := [(str "token.json", { sampleFile with canRead := false })]
        noCreate := []
        full := false
        umaskRead := false
        umaskWrite := false } }

/-- A world with the device `/dev/null`: it takes what is written and hands out
nothing. -/
def deviceWorld : World :=
  { sampleWorld with
    fs :=
      { files := [(str "/dev/null",
          { data := [], isDir := false, isDevice := true, canSearch := true, canRead := true,
            canWrite := true })]
        noCreate := []
        full := false
        umaskRead := false
        umaskWrite := false } }

/-- A world without files where the umask takes the owner's read permission off the
files that are made. -/
def umaskWorld : World :=
  { sampleWorld with
    fs := { files := [], noCreate := [], full := false, umaskRead := true, umaskWrite := false } }

/-- A world where `token.json` is a directory. -/
def directoryWorld : World :=
  { sampleWorld with
    fs :=
      { files := [(str "token.json", { sampleFile with isDir := true, data := [] })]
        noCreate := []
        full := false
        umaskRead := false
        umaskWrite := false } }

/-- A world where the device that holds `token.json` has no room left. -/
def fullWorld : World :=
  { sampleWorld with
    fs :=
      { files := [(str "token.json", sampleFile)]
        noCreate := []
        full := true
        umaskRead := false
        umaskWrite := false } }

/-- An answer of the exchange endpoint that carries a fifth field and white space,
as the answers of the service do. -/
def guidBody : GoString :=
  str "\x7b\"access_token\": \"a\", \"refresh_token\": \"r\", \"expires_in\": 3600, \"token_type\": \"bearer\", \"xoauth_yahoo_guid\": \"G\"\x7d\n"

/-- The members of `guidBody`, in the order of the text. -/
def guidMembers : List (GoString × JSON) :=
  [(str "access_token", JSON.str (str "a")), (str "refresh_token", JSON.str (str "r")),
    (str "expires_in", JSON.num (str "3600")), (str "token_type", JSON.str (str "bearer")),
    (str "xoauth_yahoo_guid", JSON.str (str "G"))]

/-- The value of the last member of an object whose name selects the field `f`, that
is, equals the name of the field up to the case folding of `encoding/json`. -/
def lastValue (f : Field) (ms : List (GoString × JSON)) : Option JSON :=
  ((ms.filter (fun m => decide (fieldOf m.1 = some f))).getLast?).map Prod.snd

/-- Strings made of well-formed runes. -/
inductive WellFormed : GoString → Prop where
  | nil : WellFormed []
  | cons (enc tl : GoString) (r n : Nat) (h : RuneAt enc r n) (ht : WellFormed tl) :
      WellFormed (enc ++ tl)

/-- The strings right under a JSON value are well-formed UTF-8: the value when it is
a string, the values of its members when it is an object. -/
def JSON.stringsValid : JSON → Prop
  | JSON.str s => validUTF8 s = true
  | JSON.obj ms => ∀ m ∈ ms, ∀ s, m.2 = JSON.str s → validUTF8 s = true
  | _ => True

/-! ## Persisting a record -/

/-- C1. A record with an empty access token, refresh token or token type, or a zero
expiry, is refused by `Write` with the validation error, and the world is left as it
was: the file system is the same (the file is not created, truncated or written), no
line is printed, no operation is attempted. -/
theorem Write_rejects_empty_record (t : GetTokenResponse) (filePath : GoString)
    (w : World)
    (h : t.AccessToken = [] ∨ t.RefreshToken = [] ∨ t.TokenType = [] ∨ t.ExpiresIn = 0) :
    t.Write filePath w = (some (Error.tokenEmpty t), w) := by
  have he : t.isEmpty = true := by
    simp only [GetTokenResponse.isEmpty, Bool.or_eq_true, decide_eq_true_eq]
    tauto
  simp [GetTokenResponse.Write, he]

/-- C1, at a record without a refresh token and a world whose token file has
contents: the file keeps them. -/
theorem Write_rejects_empty_record_witness :
    ((⟨str "a", [], 3600, str "bearer"⟩ : GetTokenResponse).AccessToken = []
        ∨ (⟨str "a", [], 3600, str "bearer"⟩ : GetTokenResponse).RefreshToken = []
        ∨ (⟨str "a", [], 3600, str "bearer"⟩ : GetTokenResponse).TokenType = []
        ∨ (⟨str "a", [], 3600, str "bearer"⟩ : GetTokenResponse).ExpiresIn = 0)
      ∧ (⟨str "a", [], 3600, str "bearer"⟩ : GetTokenResponse).Write (str "token.json")
          sampleWorld
        = (some (Error.tokenEmpty ⟨str "a", [], 3600, str "bearer"⟩), sampleWorld) :=
  ⟨Or.inr (Or.inl rfl),
    Write_rejects_empty_record ⟨str "a", [], 3600, str "bearer"⟩ (str "token.json")
      sampleWorld (Or.inr (Or.inl rfl))⟩

/-! ## Loading a record -/

/-- The errors of storing a value into a field are type errors. -/
theorem storeString_error (v : JSON) (old : GoString) (e : Error)
    (h : (storeString v old).2 = some e) : ∃ k ty, e = Error.unmarshalType k ty := by
  cases v <;> simp [storeString] at h <;> exact ⟨_, _, h.symm⟩

/-- The errors of storing a value into the `int` field are type errors. -/
theorem storeInt_error (v : JSON) (old : Int) (e : Error)
    (h : (storeInt v old).2 = some e) : ∃ k ty, e = Error.unmarshalType k ty := by
  cases v with
  | num lit =>
    simp only [storeInt] at h
    cases hp : parseInt64 lit with
    | none => simp [hp] at h; exact ⟨_, _, h.symm⟩
    | some n => simp [hp] at h
  | null => simp [storeInt] at h
  | bool b => simp [storeInt] at h; exact ⟨_, _, h.symm⟩
  | str s => simp [storeInt] at h; exact ⟨_, _, h.symm⟩
  | arr xs => simp [storeInt] at h; exact ⟨_, _, h.symm⟩
  | obj ms => simp [storeInt] at h; exact ⟨_, _, h.symm⟩

/-- Storing a member keeps the saved error a type error. -/
theorem storeMember_error (st : GetTokenResponse × Option Error) (m : GoString × JSON)
    (hst : ∀ e, st.2 = some e → ∃ k ty, e = Error.unmarshalType k ty) :
    ∀ e, (storeMember st m).2 = some e → ∃ k ty, e = Error.unmarshalType k ty := by
  intro e h
  unfold storeMember at h
  cases hf : fieldOf m.1 with
  | none => rw [hf] at h; exact hst e h
  | some f =>
    rw [hf] at h
    cases hs : st.2 with
    | some e0 =>
      have : e = e0 := by cases f <;> simp [saveError, hs] at h <;> exact h.symm
      exact hst e (this ▸ hs)
    | none =>
      cases f <;> simp only [saveError, hs] at h
      · exact storeString_error _ _ _ h
      · exact storeString_error _ _ _ h
      · exact storeInt_error _ _ _ h
      · exact storeString_error _ _ _ h

/-- Storing the members of an object keeps the saved error a type error. -/
theorem foldl_storeMember_error (ms : List (GoString × JSON)) :
    ∀ st : GetTokenResponse × Option Error,
      (∀ e, st.2 = some e → ∃ k ty, e = Error.unmarshalType k ty) →
      ∀ e, (ms.foldl storeMember st).2 = some e → ∃ k ty, e = Error.unmarshalType k ty := by
  induction ms with
  | nil => intro st hst e h; exact hst e h
  | cons m ms ih =>
    intro st hst e h
    exact ih (storeMember st m) (storeMember_error st m hst) e h

/-- The errors of `json.Unmarshal` are syntax errors and type errors. -/
theorem jsonUnmarshal_error (data : GoString) (e : Error)
    (h : (jsonUnmarshal data).2 = some e) :
    e = Error.badJSON ∨ ∃ k ty, e = Error.unmarshalType k ty := by
  unfold jsonUnmarshal at h
  cases hp : parseJSON data with
  | none => rw [hp] at h; simp at h; exact Or.inl h.symm
  | some v =>
    rw [hp] at h
    right
    cases v with
    | null => simp [decodeToken] at h
    | obj ms =>
      simp only [decodeToken] at h
      exact foldl_storeMember_error ms _ (by simp) e h
    | bool b => simp [decodeToken] at h; exact ⟨_, _, h.symm⟩
    | num l => simp [decodeToken] at h; exact ⟨_, _, h.symm⟩
    | str s => simp [decodeToken] at h; exact ⟨_, _, h.symm⟩
    | arr xs => simp [decodeToken] at h; exact ⟨_, _, h.symm⟩

/-- C3 as stated fails: `token.json` exists in `lockedWorld`, it cannot be opened,
and `LoadToken` answers with the "does the file exist?" error. -/
theorem LoadToken_existing_file_gets_not_found :
    lockedWorld.fs.lookup (str "token.json") = some { sampleFile with canSearch := false }
      ∧ osOpen lockedWorld.fs (str "token.json") = Except.error Errno.EACCES
      ∧ (LoadToken (str "token.json") lockedWorld).1
        = (none, some (Error.doesTheFileExist (str "token.json") Errno.EACCES)) := by
  decide

/-- C3 amended. `LoadToken` returns the "does the file exist?" error exactly when
`os.Stat` fails, for the path asked and with the error of `os.Stat`. A path that does
not exist always gets it (with `ENOENT`) and never an open, read or parse error. When
`os.Stat` succeeds, every error of `LoadToken` is the path error of `os.Open` or of
the read, or an error of `json.Unmarshal`. -/
theorem LoadToken_not_found_iff_stat_fails (filePath : GoString) (w : World) :
    (w.fs.lookup filePath = none →
        (LoadToken filePath w).1
          = (none, some (Error.doesTheFileExist filePath Errno.ENOENT)))
      ∧ (∀ p c, (LoadToken filePath w).1.2 = some (Error.doesTheFileExist p c)
          ↔ (p = filePath ∧ osStat w.fs filePath = some c))
      ∧ (osStat w.fs filePath = none → ∀ e, (LoadToken filePath w).1.2 = some e →
          (∃ c, e = Error.pathError (str "open") filePath c)
            ∨ (∃ c, e = Error.pathError (str "read") filePath c)
            ∨ e = Error.badJSON
            ∨ ∃ v ty, e = Error.unmarshalType v ty) := by
  refine ⟨?_, ?_, ?_⟩
  · intro h
    simp [LoadToken, osStat, h]
  · intro p c
    unfold LoadToken
    cases hs : osStat w.fs filePath with
    | some e =>
      simp only [Error.doesTheFileExist.injEq, Option.some.injEq]
      constructor
      · rintro ⟨h1, h2⟩
        exact ⟨h1.symm, h2⟩
      · rintro ⟨h1, h2⟩
        exact ⟨h1.symm, h2⟩
    | none =>
      simp only
      cases ho : osOpen w.fs filePath with
      | error e => simp
      | ok f =>
        simp only
        cases hr : readAll f with
        | error e => simp
        | ok bytes =>
          simp only
          constructor
          · intro h
            rcases jsonUnmarshal_error bytes _ h with h1 | ⟨k, ty, h1⟩ <;> cases h1
          · rintro ⟨_, h2⟩
            cases h2
  · intro hs e h
    unfold LoadToken at h
    rw [hs] at h
    simp only at h
    cases ho : osOpen w.fs filePath with
    | error c =>
      rw [ho] at h
      simp only [Option.some.injEq] at h
      exact Or.inl ⟨c, h.symm⟩
    | ok f =>
      rw [ho] at h
      simp only at h
      cases hr : readAll f with
      | error c =>
        rw [hr] at h
        simp only [Option.some.injEq] at h
        exact Or.inr (Or.inl ⟨c, h.symm⟩)
      | ok bytes =>
        rw [hr] at h
        simp only at h
        exact Or.inr (Or.inr (jsonUnmarshal_error bytes e h))

set_option maxRecDepth 100000 in
/-- C3 amended, at a path that does not exist, at a directory and at a file that is
not JSON. -/
theorem LoadToken_not_found_iff_stat_fails_witness :
    (LoadToken (str "missing.json") sampleWorld).1
        = (none, some (Error.doesTheFileExist (str "missing.json") Errno.ENOENT))
      ∧ (LoadToken (str "token.json") directoryWorld).1
        = (none, some (Error.pathError (str "read") (str "token.json") Errno.EISDIR))
      ∧ (LoadToken (str "token.json") sampleWorld).1 = (none, some Error.badJSON) :=
  ⟨(LoadToken_not_found_iff_stat_fails (str "missing.json") sampleWorld).1 (by decide),
    by decide, by decide⟩

/-! ## The command line -/

/-- The case `get-code` of `main`. -/
theorem main_get_code (net : Request → NetResult) (prog : GoString)
    (arguments : List GoString) (environ : List (GoString × GoString)) (w : World) :
    main net (prog :: str "get-code" :: arguments) environ w
      = runGetCode arguments (initialVars environ) w := by
  unfold main
  simp only []
  rw [if_neg (by decide), if_pos trivial]

/-- The case `get-token` of `main`. -/
theorem main_get_token (net : Request → NetResult) (prog : GoString)
    (arguments : List GoString) (environ : List (GoString × GoString)) (w : World) :
    main net (prog :: str "get-token" :: arguments) environ w
      = runGetToken net arguments (initialVars environ) w := by
  unfold main
  simp only []
  rw [if_neg (by decide), if_neg (by decide), if_pos trivial]

/-- The case `refresh-token` of `main`. -/
theorem main_refresh_token (net : Request → NetResult) (prog : GoString)
    (arguments : List GoString) (environ : List (GoString × GoString)) (w : World) :
    main net (prog :: str "refresh-token" :: arguments) environ w
      = runRefreshToken net arguments (initialVars environ) w := by
  unfold main
  simp only []
  rw [if_neg (by decide), if_neg (by decide), if_neg (by decide), if_pos trivial]

/-- The hint of `GetCode` has no verb: `fmt.Printf` prints it as it is. -/
theorem printf0_hint_id :
    printf0 (str "please provide a client id, if you do not have one try create-app")
      = str "please provide a client id, if you do not have one try create-app" := by
  decide

/-- The first hint of `lintArgs` has no verb. -/
theorem printf0_hint_secret :
    printf0 (str "please provide a client id and a client secret")
      = str "please provide a client id and a client secret" := by
  decide

/-- The second hint of `lintArgs` has no verb. -/
theorem printf0_hint_code :
    printf0 (str "please provide a code to obtain the secret with (did you run get-code?)")
      = str "please provide a code to obtain the secret with (did you run get-code?)" := by
  decide

/-- C6. When the flags parse and a required input is left empty (the client id for
`get-code`; the client id, the client secret or the code for `get-token`; the client
id or the client secret for `refresh-token`), `main` prints a hint and exits with
status 2; the file system and the list of operations performed are as before the
run: no request was sent, the token file was neither read nor written. -/
theorem missing_input_exits_before_io (net : Request → NetResult) (prog : GoString)
    (arguments : List GoString) (environ : List (GoString × GoString)) (w : World)
    (v : Vars) :
    (flagParse (arguments.length + 1) getCodeCmd arguments (initialVars environ)
          = Except.ok v → v.clientID = [] →
        main net (prog :: str "get-code" :: arguments) environ w
          = Result.exit 2
              { fs := w.fs
                stdout := w.stdout ++ [Output.text
                  (str "please provide a client id, if you do not have one try create-app")]
                stderr := w.stderr
                log := w.log })
      ∧ (flagParse (arguments.length + 1) getCmd arguments (initialVars environ)
          = Except.ok v → v.clientID = [] ∨ v.clientSecret = [] ∨ v.clientCode = [] →
        ∃ hint, hint ≠ [] ∧
          main net (prog :: str "get-token" :: arguments) environ w
            = Result.exit 2
                { fs := w.fs
                  stdout := w.stdout ++ [Output.text hint]
                  stderr := w.stderr
                  log := w.log })
      ∧ (flagParse (arguments.length + 1) refreshCmd arguments (initialVars environ)
          = Except.ok v → v.clientID = [] ∨ v.clientSecret = [] →
        main net (prog :: str "refresh-token" :: arguments) environ w
          = Result.exit 2
              { fs := w.fs
                stdout := w.stdout ++ [Output.text
                  (str "please provide a client id and a client secret")]
                stderr := w.stderr
                log := w.log }) := by
  refine ⟨?_, ?_, ?_⟩
  · intro hp hid
    rw [main_get_code]
    simp [runGetCode, parseOrExit, hp, GetCode, hid, printf0_hint_id, World.print]
  · intro hp h
    rw [main_get_token]
    by_cases h1 : v.clientID = [] ∨ v.clientSecret = []
    · refine ⟨str "please provide a client id and a client secret", by decide, ?_⟩
      simp [runGetToken, parseOrExit, hp, lintArgs, h1, printf0_hint_secret, World.print]
    · have hc : v.clientCode = [] := by tauto
      refine ⟨str "please provide a code to obtain the secret with (did you run get-code?)",
        by decide, ?_⟩
      simp [runGetToken, parseOrExit, hp, lintArgs, h1, hc, printf0_hint_code, World.print]
  · intro hp h
    rw [main_refresh_token]
    simp [runRefreshToken, parseOrExit, hp, lintArgs, h, printf0_hint_secret, World.print]

/-- C6, at three runs that leave the client id, the code and the client secret
empty. -/
theorem missing_input_exits_before_io_witness :
    main (fun _ => NetResult.body []) [str "helper", str "get-code"] [] sampleWorld
        = Result.exit 2
            { sampleWorld with
              stdout := [Output.text
                (str "please provide a client id, if you do not have one try create-app")] }
      ∧ (∃ hint, hint ≠ [] ∧
          main (fun _ => NetResult.body [])
              [str "helper", str "get-token", str "-id", str "i", str "-secret", str "s"]
              [] sampleWorld
            = Result.exit 2 { sampleWorld with stdout := [Output.text hint] })
      ∧ main (fun _ => NetResult.body [])
          [str "helper", str "refresh-token", str "-id", str "i"] [] sampleWorld
        = Result.exit 2
            { sampleWorld with
              stdout := [Output.text (str "please provide a client id and a client secret")] } :=
  ⟨(missing_input_exits_before_io (fun _ => NetResult.body []) (str "helper") [] []
      sampleWorld ⟨[], [], [], []⟩).1 (by decide) rfl,
    (missing_input_exits_before_io (fun _ => NetResult.body []) (str "helper")
      [str "-id", str "i", str "-secret", str "s"] [] sampleWorld
      ⟨[], str "i", str "s", []⟩).2.1 (by decide) (Or.inr (Or.inr rfl)),
    (missing_input_exits_before_io (fun _ => NetResult.body []) (str "helper")
      [str "-id", str "i"] [] sampleWorld ⟨[], str "i", [], []⟩).2.2 (by decide)
      (Or.inr rfl)⟩

/-! ## The exchange request -/

/-- C7. The request `GetToken` sends is the one it builds from its arguments: its
`Authorization` header is `Basic ` and the standard base64 encoding of
`clientID:clientSecret`, its `Content-Type` header is
`application/x-www-form-urlencoded`, its body is the URL encoding of the form
values. It is the only operation `GetToken` performs. -/
theorem GetToken_request (net : Request → NetResult) (clientID clientSecret : GoString)
    (values : Values) (w : World) :
    (GetToken net clientID clientSecret values w).2.log
        = w.log ++ [Event.httpDo (buildRequest clientID clientSecret values)]
      ∧ Header.Get (buildRequest clientID clientSecret values).header (str "Authorization")
        = str "Basic " ++ base64Encode (clientID ++ str ":" ++ clientSecret)
      ∧ Header.Get (buildRequest clientID clientSecret values).header (str "Content-Type")
        = str "application/x-www-form-urlencoded"
      ∧ (buildRequest clientID clientSecret values).body = Values.Encode values
      ∧ (buildRequest clientID clientSecret values).method = str "POST"
      ∧ (buildRequest clientID clientSecret values).url = GetTokenURL := by
  refine ⟨?_, rfl, rfl, rfl, rfl, rfl⟩
  unfold GetToken
  simp only []
  split <;> rfl

/-- The standard base64 encoding, at the example of RFC 4648 and at credentials. -/
theorem base64Encode_examples :
    base64Encode (str "foobar") = str "Zm9vYmFy"
      ∧ base64Encode (str "fooba") = str "Zm9vYmE="
      ∧ base64Encode (str "foob") = str "Zm9vYg=="
      ∧ base64Encode (str "id:secret") = str "aWQ6c2VjcmV0" := by
  decide

/-! ## Runs that go wrong -/

set_option maxRecDepth 100000 in
/-- C9 fails on the code. When the exchange endpoint answers with an empty body
(and so too with any body that is not JSON), `json.Unmarshal` leaves the pointer nil,
`GetToken` returns it with a nil error, and `main` calls `Write` on it: the process
dies of a nil pointer dereference after the request, with nothing printed and the
token file as it was. The body `null` ends the same way. -/
theorem get_token_panics_on_empty_body :
    main (fun _ => NetResult.body []) getTokenArgs [] sampleWorld
        = Result.panic { sampleWorld with log := [Event.httpDo getTokenRequest] }
      ∧ main (fun _ => NetResult.body (str "null")) getTokenArgs [] sampleWorld
        = Result.panic { sampleWorld with log := [Event.httpDo getTokenRequest] }
      ∧ main (fun _ => NetResult.body (str "<html>Bad Gateway</html>")) getTokenArgs [] sampleWorld
        = Result.panic { sampleWorld with log := [Event.httpDo getTokenRequest] } := by
  decide

set_option maxRecDepth 100000 in
/-- C10 fails on the code. The text `GetCode` returns is used as the format of
`fmt.Printf`: with the client id `dj0yJmk9%3D` the line printed holds
`%!D(MISSING)` where the client id has `%3D`, and differs from the text `GetCode`
returned. -/
theorem get_code_mangles_percent :
    main (fun _ => NetResult.body []) [str "helper", str "get-code", str "-id", str "dj0yJmk9%3D"]
        [] sampleWorld
        = Result.ok ()
            { sampleWorld with
              stdout := [Output.text
                (str "Click this link to retrieve a code:\nhttps://api.login.yahoo.com/oauth2/request_auth?client_id=dj0yJmk9%!D(MISSING)&redirect_uri=oob&response_type=code\n\n")] }
      ∧ codeLink (str "dj0yJmk9%3D")
        = str "Click this link to retrieve a code:\nhttps://api.login.yahoo.com/oauth2/request_auth?client_id=dj0yJmk9%3D&redirect_uri=oob&response_type=code\n\n"
      ∧ printf0 (codeLink (str "dj0yJmk9%3D")) ≠ codeLink (str "dj0yJmk9%3D") := by
  decide

/-! ## The form values -/

/-- The form values of `get-token`, listed. -/
theorem getTokenValues_eq (v : Vars) :
    getTokenValues v
      = [(str "client_id", [v.clientID]), (str "client_secret", [v.clientSecret]),
          (str "code", [v.clientCode]), (str "grant_type", [str "authorization_code"]),
          (str "redirect_uri", [str "oob"])] := by
  rfl

/-- The form values of `refresh-token`, listed. -/
theorem refreshValues_eq (v : Vars) (oldToken : GetTokenResponse) :
    refreshValues v oldToken
      = [(str "client_id", [v.clientID]), (str "client_secret", [v.clientSecret]),
          (str "grant_type", [str "refresh_token"]), (str "redirect_uri", [str "oob"]),
          (str "refresh_token", [oldToken.RefreshToken])] := by
  rfl

set_option maxRecDepth 100000 in
/-- The body of the `get-token` request. -/
theorem encode_getTokenValues (v : Vars) :
    Values.Encode (getTokenValues v)
      = str "client_id=" ++ (QueryEscape v.clientID ++ (str "&client_secret="
          ++ (QueryEscape v.clientSecret ++ (str "&code=" ++ (QueryEscape v.clientCode
          ++ str "&grant_type=authorization_code&redirect_uri=oob"))))) := by
  rfl

set_option maxRecDepth 100000 in
/-- The body of the `refresh-token` request. -/
theorem encode_refreshValues (v : Vars) (oldToken : GetTokenResponse) :
    Values.Encode (refreshValues v oldToken)
      = str "client_id=" ++ (QueryEscape v.clientID ++ (str "&client_secret="
          ++ (QueryEscape v.clientSecret
          ++ (str "&grant_type=refresh_token&redirect_uri=oob&refresh_token="
          ++ QueryEscape oldToken.RefreshToken)))) := by
  have h : Values.Encode (refreshValues v oldToken)
      = str "client_id=" ++ (QueryEscape v.clientID ++ (str "&client_secret="
          ++ (QueryEscape v.clientSecret
          ++ (str "&grant_type=refresh_token&redirect_uri=oob&refresh_token="
          ++ (QueryEscape oldToken.RefreshToken ++ []))))) := by
    rfl
  rw [h, List.append_nil]

/-! ## The file system -/

/-- After `store`, the path holds the entry stored. -/
theorem FS.lookup_store_self (fs : FS) (path : GoString) (f : File) (h : path ≠ []) :
    (fs.store path f).lookup path = some f := by
  simp [FS.lookup, FS.store, List.lookup, h]

/-- What a successful `os.OpenFile` leaves at the path: a file that is no directory
and can be reached; it is a device exactly when a device was there before, and a
regular file is empty. -/
theorem osOpenFile_ok (fs fs1 : FS) (path : GoString)
    (h : osOpenFile fs path = Except.ok fs1) :
    path ≠ [] ∧ fs1.full = fs.full ∧
      ∃ f, fs1 = fs.store path f ∧ f.isDir = false ∧ f.canSearch = true
        ∧ (f.isDevice = false → f.data = [])
        ∧ (f.isDevice = match fs.lookup path with
            | some g => g.isDevice
            | none => false) := by
  unfold osOpenFile at h
  by_cases hp : path = []
  · simp [hp] at h
  · simp only [hp, if_false] at h
    refine ⟨hp, ?_⟩
    cases hl : fs.lookup path with
    | none =>
      rw [hl] at h
      simp only at h
      cases hn : fs.noCreate.lookup path with
      | some e => rw [hn] at h; simp at h
      | none =>
        rw [hn] at h
        simp only [Except.ok.injEq] at h
        subst h
        exact ⟨rfl, newFile fs, rfl, rfl, rfl, fun _ => rfl, rfl⟩
    | some g =>
      rw [hl] at h
      simp only at h
      by_cases h1 : g.canSearch = true
      · by_cases h2 : g.isDir = true
        · simp [h1, h2] at h
        · by_cases h3 : g.canWrite = true
          · by_cases h4 : g.isDevice = true
            · rw [h1, h3, h4] at h
              simp only [h2, Bool.not_true, Bool.false_eq_true, if_false, if_true,
                Except.ok.injEq] at h
              subst h
              have hdir : g.isDir = false := by simpa using h2
              exact ⟨rfl, g, rfl, hdir, h1, (fun hd => by rw [h4] at hd; cases hd), rfl⟩
            · rw [h1, h3] at h
              simp only [h2, h4, Bool.not_true, Bool.false_eq_true, if_false,
                Except.ok.injEq] at h
              subst h
              have hdir : g.isDir = false := by simpa using h2
              have hdev : g.isDevice = false := by simpa using h4
              exact ⟨rfl, ⟨[], false, false, true, g.canRead, true⟩, rfl, rfl, rfl,
                (fun _ => rfl), hdev.symm⟩
          · simp [h1, h2, h3] at h
      · simp [h1] at h

/-- The world `Write` leaves when the file opens as a regular file and the device
has room. -/
theorem Write_of_open (t : GetTokenResponse) (path : GoString) (w : World) (fs1 : FS)
    (f : File) (ht : t.isEmpty = false) (ho : osOpenFile w.fs path = Except.ok fs1)
    (hf : fs1.lookup path = some f) (hdev : f.isDevice = false)
    (hfull : fs1.full = false) :
    t.Write path w
      = (none,
          { fs := fs1.store path { f with data := jsonMarshal t }
            stdout := w.stdout ++ [Output.text (str "writing token to " ++ path ++ str "\n")]
            stderr := w.stderr
            log := w.log ++ [Event.openTrunc path, Event.write path (jsonMarshal t)] }) := by
  simp [GetTokenResponse.Write, ht, ho, fileWrite, hf, hdev, hfull, World.record,
    World.print]

/-- When `Write` returns nil, the path holds afterwards a file that is no directory
and can be reached; when that file is no device, it holds what `json.Marshal` wrote
for the record. -/
theorem Write_ok_post (t : GetTokenResponse) (path : GoString) (w : World)
    (h : (t.Write path w).1 = none) :
    ∃ f, (t.Write path w).2.fs.lookup path = some f ∧ f.isDir = false
      ∧ f.canSearch = true ∧ (f.isDevice = false → f.data = jsonMarshal t) := by
  unfold GetTokenResponse.Write at h ⊢
  cases ht : t.isEmpty with
  | true => simp [ht] at h
  | false =>
    simp only [ht, Bool.false_eq_true, if_false] at h ⊢
    cases ho : osOpenFile w.fs path with
    | error e => rw [ho] at h; simp at h
    | ok fs1 =>
      rw [ho] at h
      simp only at h ⊢
      obtain ⟨hne, -, f, hfs1, hdir, hsearch, -, -⟩ := osOpenFile_ok _ _ _ ho
      have hl : fs1.lookup path = some f := by
        rw [hfs1]
        exact FS.lookup_store_self _ _ _ hne
      by_cases hdev : f.isDevice = true
      · have hw : fileWrite fs1 path (jsonMarshal t) = Except.ok fs1 := by
          simp [fileWrite, hl, hdev]
        rw [hw]
        exact ⟨f, hl, hdir, hsearch, fun hd => by rw [hdev] at hd; cases hd⟩
      · by_cases hfull : fs1.full = true
        · have hne2 : (jsonMarshal t).isEmpty = false := rfl
          have hw : fileWrite fs1 path (jsonMarshal t) = Except.error Errno.ENOSPC := by
            simp [fileWrite, hl, hdev, hfull, hne2]
          rw [hw] at h
          simp at h
        · have hw : fileWrite fs1 path (jsonMarshal t)
              = Except.ok (fs1.store path { f with data := jsonMarshal t }) := by
            simp [fileWrite, hl, hdev, hfull]
          rw [hw]
          exact ⟨{ f with data := jsonMarshal t }, FS.lookup_store_self _ _ _ hne, hdir,
            hsearch, fun _ => rfl⟩

/-! ## The requests of a run -/

/-- The requests of two lists of operations. -/
theorem requestsOf_append (a b : List Event) :
    requestsOf (a ++ b) = requestsOf a ++ requestsOf b := by
  induction a with
  | nil => rfl
  | cons e a ih => cases e <;> simp [requestsOf, ih]

/-- The world `GetToken` leaves: the request is the one operation added. -/
theorem GetToken_world (net : Request → NetResult) (clientID clientSecret : GoString)
    (values : Values) (w : World) :
    (GetToken net clientID clientSecret values w).2
      = w.record (Event.httpDo (buildRequest clientID clientSecret values)) := by
  unfold GetToken
  simp only []
  split <;> rfl

/-- `Write` sends no request. -/
theorem Write_requests (t : GetTokenResponse) (path : GoString) (w : World) :
    requestsOf (t.Write path w).2.log = requestsOf w.log := by
  unfold GetTokenResponse.Write
  split
  · rfl
  · split
    · simp [World.record, requestsOf_append, requestsOf]
    · simp only []
      split <;> simp [World.record, World.print, requestsOf_append, requestsOf]

/-- `LoadToken` sends no request. -/
theorem LoadToken_requests (path : GoString) (w : World) :
    requestsOf (LoadToken path w).2.log = requestsOf w.log := by
  unfold LoadToken
  simp only []
  split
  · simp [World.record, requestsOf_append, requestsOf]
  · split
    · simp [World.record, requestsOf_append, requestsOf]
    · split <;> simp [World.record, requestsOf_append, requestsOf]

/-- The end of `get-token` and `refresh-token` sends no request. -/
theorem storeToken_requests (pfx tokenFile : GoString)
    (got : (Option GetTokenResponse × Option Error) × World) :
    requestsOf (storeToken pfx tokenFile got).world.log = requestsOf got.2.log := by
  unfold storeToken
  split
  · rfl
  · split
    · rfl
    · split
      · simp [Result.world, World.printErr, Write_requests]
      · simp [Result.world, Write_requests]

/-- The requests of a run of `get-token` with its three inputs given: one, built
from the inputs. -/
theorem runGetToken_requests (net : Request → NetResult) (arguments : List GoString)
    (v0 v : Vars) (w : World)
    (hparse : flagParse (arguments.length + 1) getCmd arguments v0 = Except.ok v)
    (hid : v.clientID ≠ []) (hsecret : v.clientSecret ≠ []) (hcode : v.clientCode ≠ []) :
    requestsOf (runGetToken net arguments v0 w).world.log
      = requestsOf w.log ++ [buildRequest v.clientID v.clientSecret (getTokenValues v)] := by
  simp [runGetToken, parseOrExit, hparse, lintArgs, hid, hsecret, hcode,
    storeToken_requests, GetToken_world, World.record, requestsOf_append, requestsOf]

/-- The requests of a run of `refresh-token` with its two inputs given and a token
file that loads: one, built from the inputs and the record loaded. -/
theorem runRefreshToken_requests (net : Request → NetResult) (arguments : List GoString)
    (v0 v : Vars) (w : World) (oldToken : GetTokenResponse)
    (hparse : flagParse (arguments.length + 1) refreshCmd arguments v0 = Except.ok v)
    (hid : v.clientID ≠ []) (hsecret : v.clientSecret ≠ [])
    (hload : (LoadToken v.tokenFile w).1 = (some oldToken, none)) :
    requestsOf (runRefreshToken net arguments v0 w).world.log
      = requestsOf w.log
          ++ [buildRequest v.clientID v.clientSecret (refreshValues v oldToken)] := by
  have h1 : (LoadToken v.tokenFile w).1.1 = some oldToken := by rw [hload]
  have h2 : (LoadToken v.tokenFile w).1.2 = none := by rw [hload]
  simp [runRefreshToken, parseOrExit, hparse, lintArgs, hid, hsecret, h1, h2,
    storeToken_requests, GetToken_world, World.record, requestsOf_append, requestsOf,
    LoadToken_requests]

/-- The requests of a run of `refresh-token` whose token file loads as the nil
pointer: none, the run dies before it builds the request. -/
theorem runRefreshToken_requests_nil (net : Request → NetResult)
    (arguments : List GoString) (v0 v : Vars) (w : World)
    (hparse : flagParse (arguments.length + 1) refreshCmd arguments v0 = Except.ok v)
    (hid : v.clientID ≠ []) (hsecret : v.clientSecret ≠ [])
    (hload : (LoadToken v.tokenFile w).1 = (none, none)) :
    requestsOf (runRefreshToken net arguments v0 w).world.log = requestsOf w.log := by
  have h1 : (LoadToken v.tokenFile w).1.1 = none := by rw [hload]
  have h2 : (LoadToken v.tokenFile w).1.2 = none := by rw [hload]
  simp [runRefreshToken, parseOrExit, hparse, lintArgs, hid, hsecret, h1, h2, Result.world,
    LoadToken_requests]

/-- C5. In a run of `refresh-token` whose flags parse, whose client id and client
secret are not empty and whose token file loads without an error (at the start of the
run), whatever the command line and the environment are: when the file loads to a
record `oldToken`, one request is sent, and its body is the URL encoding of form
values where `grant_type` is `refresh_token` and `refresh_token` is the refresh token
of `oldToken`; when the file loads to the nil pointer (the document `null`), no
request is sent. -/
theorem refresh_token_request_form (net : Request → NetResult) (prog : GoString)
    (arguments : List GoString) (environ : List (GoString × GoString)) (w : World)
    (v : Vars)
    (hparse : flagParse (arguments.length + 1) refreshCmd arguments (initialVars environ)
      = Except.ok v)
    (hid : v.clientID ≠ []) (hsecret : v.clientSecret ≠ [])
    (hload : (LoadToken v.tokenFile w).1.2 = none) :
    (∀ oldToken, (LoadToken v.tokenFile w).1.1 = some oldToken →
        requestsOf (main net (prog :: str "refresh-token" :: arguments) environ w).world.log
            = requestsOf w.log
                ++ [buildRequest v.clientID v.clientSecret (refreshValues v oldToken)]
          ∧ (buildRequest v.clientID v.clientSecret (refreshValues v oldToken)).body
            = Values.Encode (refreshValues v oldToken)
          ∧ Values.Get (refreshValues v oldToken) (str "grant_type") = str "refresh_token"
          ∧ Values.Get (refreshValues v oldToken) (str "refresh_token")
            = oldToken.RefreshToken
          ∧ Values.Encode (refreshValues v oldToken)
            = str "client_id=" ++ QueryEscape v.clientID ++ str "&client_secret="
                ++ QueryEscape v.clientSecret
                ++ str "&grant_type=refresh_token&redirect_uri=oob&refresh_token="
                ++ QueryEscape oldToken.RefreshToken)
      ∧ ((LoadToken v.tokenFile w).1.1 = none →
        requestsOf (main net (prog :: str "refresh-token" :: arguments) environ w).world.log
          = requestsOf w.log) := by
  constructor
  · intro oldToken hsome
    refine ⟨?_, rfl, rfl, rfl, ?_⟩
    · rw [main_refresh_token]
      exact runRefreshToken_requests net arguments _ v w oldToken hparse hid hsecret
        (Prod.ext hsome hload)
    · rw [encode_refreshValues]
      simp only [List.append_assoc]
  · intro hnone
    rw [main_refresh_token]
    exact runRefreshToken_requests_nil net arguments _ v w hparse hid hsecret
      (Prod.ext hnone hload)

set_option maxRecDepth 100000 in
/-- C5, at a run with the flags `-id`, `-secret` and `-file` and a token file whose
refresh token is `r1`. -/
theorem refresh_token_request_form_witness :
    (LoadToken (str "token.json") storedWorld).1
        = (some ⟨str "a", str "r1", 3600, str "bearer"⟩, none)
      ∧ requestsOf (main (fun _ => NetResult.body [])
          [str "helper", str "refresh-token", str "-id", str "id", str "-secret",
            str "secret", str "-file", str "token.json"] [] storedWorld).world.log
        = [{ method := str "POST"
             url := str "https://api.login.yahoo.com/oauth2/get_token"
             header :=
               [(str "Content-Type", [str "application/x-www-form-urlencoded"]),
                 (str "Authorization", [str "Basic aWQ6c2VjcmV0"]),
                 (str "Content-Length", [str "92"])]
             body :=
               str "client_id=id&client_secret=secret&grant_type=refresh_token&redirect_uri=oob&refresh_token=r1" }] :=
  ⟨by decide,
    (((refresh_token_request_form (fun _ => NetResult.body []) (str "helper")
      [str "-id", str "id", str "-secret", str "secret", str "-file", str "token.json"] []
      storedWorld ⟨[], str "id", str "secret", str "token.json"⟩ (by decide) (by decide)
      (by decide) (by decide)).1 ⟨str "a", str "r1", 3600, str "bearer"⟩ (by decide)).1).trans
      (by decide)⟩

/-! ## Where the credentials travel -/

set_option maxRecDepth 100000 in
/-- C8 as stated fails: in the run `getTokenArgs` the request carries the client id
and the client secret in its form body, as the values of `client_id` and
`client_secret`. -/
theorem get_token_sends_credentials_in_form :
    requestsOf (main (fun _ => NetResult.body sampleBody) getTokenArgs [] sampleWorld).world.log
        = [getTokenRequest]
      ∧ getTokenRequest.body
        = Values.Encode (getTokenValues ⟨str "code", str "id", str "secret", str "token.json"⟩)
      ∧ Values.Get (getTokenValues ⟨str "code", str "id", str "secret", str "token.json"⟩)
          (str "client_id") = str "id"
      ∧ Values.Get (getTokenValues ⟨str "code", str "id", str "secret", str "token.json"⟩)
          (str "client_secret") = str "secret" := by
  decide

/-- The `Authorization` header of the request `GetToken` builds. -/
theorem buildRequest_authorization (clientID clientSecret : GoString) (values : Values) :
    Header.Get (buildRequest clientID clientSecret values).header (str "Authorization")
      = str "Basic " ++ base64Encode (clientID ++ str ":" ++ clientSecret) := by
  rfl

/-- The body of the request `GetToken` builds. -/
theorem buildRequest_body (clientID clientSecret : GoString) (values : Values) :
    (buildRequest clientID clientSecret values).body = Values.Encode values := by
  rfl

/-- The credentials among the form values of `get-token`. -/
theorem getTokenValues_credentials (v : Vars) :
    Values.Get (getTokenValues v) (str "client_id") = v.clientID
      ∧ Values.Get (getTokenValues v) (str "client_secret") = v.clientSecret := by
  rw [getTokenValues_eq]
  exact ⟨rfl, rfl⟩

/-- The credentials among the form values of `refresh-token`. -/
theorem refreshValues_credentials (v : Vars) (oldToken : GetTokenResponse) :
    Values.Get (refreshValues v oldToken) (str "client_id") = v.clientID
      ∧ Values.Get (refreshValues v oldToken) (str "client_secret") = v.clientSecret := by
  rw [refreshValues_eq]
  exact ⟨rfl, rfl⟩

/-- C8 amended. The request of `get-token` and the request of `refresh-token` carry
the client id and the client secret twice: in the `Authorization` header, as `Basic`
and the base64 encoding of `clientID:clientSecret`, and in the form body, as the
values of `client_id` and `client_secret`. -/
theorem credentials_in_header_and_form (net : Request → NetResult) (prog : GoString)
    (arguments : List GoString) (environ : List (GoString × GoString)) (w : World)
    (v : Vars) (hid : v.clientID ≠ []) (hsecret : v.clientSecret ≠ []) :
    (flagParse (arguments.length + 1) getCmd arguments (initialVars environ) = Except.ok v →
        v.clientCode ≠ [] →
        requestsOf (main net (prog :: str "get-token" :: arguments) environ w).world.log
            = requestsOf w.log
                ++ [buildRequest v.clientID v.clientSecret (getTokenValues v)]
          ∧ Header.Get (buildRequest v.clientID v.clientSecret (getTokenValues v)).header
              (str "Authorization")
            = str "Basic " ++ base64Encode (v.clientID ++ str ":" ++ v.clientSecret)
          ∧ Values.Get (getTokenValues v) (str "client_id") = v.clientID
          ∧ Values.Get (getTokenValues v) (str "client_secret") = v.clientSecret
          ∧ (buildRequest v.clientID v.clientSecret (getTokenValues v)).body
            = str "client_id=" ++ QueryEscape v.clientID ++ str "&client_secret="
                ++ QueryEscape v.clientSecret ++ str "&code=" ++ QueryEscape v.clientCode
                ++ str "&grant_type=authorization_code&redirect_uri=oob")
      ∧ (∀ oldToken : GetTokenResponse,
        flagParse (arguments.length + 1) refreshCmd arguments (initialVars environ)
          = Except.ok v →
        (LoadToken v.tokenFile w).1 = (some oldToken, none) →
        requestsOf (main net (prog :: str "refresh-token" :: arguments) environ w).world.log
            = requestsOf w.log
                ++ [buildRequest v.clientID v.clientSecret (refreshValues v oldToken)]
          ∧ Header.Get
              (buildRequest v.clientID v.clientSecret (refreshValues v oldToken)).header
              (str "Authorization")
            = str "Basic " ++ base64Encode (v.clientID ++ str ":" ++ v.clientSecret)
          ∧ Values.Get (refreshValues v oldToken) (str "client_id") = v.clientID
          ∧ Values.Get (refreshValues v oldToken) (str "client_secret") = v.clientSecret
          ∧ (buildRequest v.clientID v.clientSecret (refreshValues v oldToken)).body
            = str "client_id=" ++ QueryEscape v.clientID ++ str "&client_secret="
                ++ QueryEscape v.clientSecret
                ++ str "&grant_type=refresh_token&redirect_uri=oob&refresh_token="
                ++ QueryEscape oldToken.RefreshToken) := by
  constructor
  · intro hparse hcode
    refine ⟨?_, buildRequest_authorization _ _ _, (getTokenValues_credentials v).1,
      (getTokenValues_credentials v).2, ?_⟩
    · rw [main_get_token]
      exact runGetToken_requests net arguments _ v w hparse hid hsecret hcode
    · rw [buildRequest_body, encode_getTokenValues]
      simp only [List.append_assoc]
  · intro oldToken hparse hload
    refine ⟨?_, buildRequest_authorization _ _ _, (refreshValues_credentials v oldToken).1,
      (refreshValues_credentials v oldToken).2, ?_⟩
    · rw [main_refresh_token]
      exact runRefreshToken_requests net arguments _ v w oldToken hparse hid hsecret hload
    · rw [buildRequest_body, encode_refreshValues]
      simp only [List.append_assoc]

set_option maxRecDepth 100000 in
/-- C8 amended, at the run `getTokenArgs`. -/
theorem credentials_in_header_and_form_witness :
    (⟨str "code", str "id", str "secret", str "token.json"⟩ : Vars).clientID ≠ []
      ∧ (⟨str "code", str "id", str "secret", str "token.json"⟩ : Vars).clientSecret ≠ []
      ∧ requestsOf
          (main (fun _ => NetResult.body sampleBody)
            (str "helper" :: str "get-token" :: getTokenArgs.drop 2) [] sampleWorld).world.log
        = requestsOf sampleWorld.log
            ++ [buildRequest (str "id") (str "secret")
              (getTokenValues ⟨str "code", str "id", str "secret", str "token.json"⟩)] :=
  ⟨by decide, by decide,
    ((credentials_in_header_and_form (fun _ => NetResult.body sampleBody) (str "helper")
      (getTokenArgs.drop 2) [] sampleWorld ⟨str "code", str "id", str "secret", str "token.json"⟩
      (by decide) (by decide)).1 (by decide) (by decide)).1⟩

/-! ## UTF-8 -/

/-- `byte` gives back a byte. -/
theorem byte_val (b : Byte) : byte b.val = b := by
  apply Fin.ext
  simp only [byte]
  exact Nat.mod_eq_of_lt b.isLt

/-- A byte from its value. -/
theorem byte_eq_of_val (n : Nat) (b : Byte) (h : n = b.val) : byte n = b := by
  subst h
  exact byte_val b

/-- A continuation byte lies in `0x80 .. 0xBF`. -/
theorem isCont_iff (b : Byte) : isCont b = true ↔ 0x80 ≤ b.val ∧ b.val ≤ 0xBF := by
  simp [isCont]

/-- A well-formed encoding decodes to its rune, whatever follows it. -/
theorem RuneAt.decode {enc : GoString} {r n : Nat} (h : RuneAt enc r n) (t : GoString) :
    decodeRune (enc ++ t) = (r, n) := by
  cases h with
  | one p0 h => simp [decodeRune, h]
  | two p0 b1 h0 h1 =>
    have : ¬ p0.val < 0x80 := by omega
    simp [decodeRune, this, h0, isCont_iff, h1]
  | three p0 b1 b2 h0 h1 h2 =>
    have e1 : ¬ p0.val < 0x80 := by omega
    have e2 : ¬ (0xC2 ≤ p0.val ∧ p0.val ≤ 0xDF) := by omega
    simp only [List.cons_append, List.nil_append, decodeRune, e1, e2, h0, h1, isCont_iff, h2,
      if_false, if_true, and_self]
  | four p0 b1 b2 b3 h0 h1 h2 h3 =>
    have e1 : ¬ p0.val < 0x80 := by omega
    have e2 : ¬ (0xC2 ≤ p0.val ∧ p0.val ≤ 0xDF) := by omega
    have e3 : ¬ (0xE0 ≤ p0.val ∧ p0.val ≤ 0xEF) := by omega
    simp only [List.cons_append, List.nil_append, decodeRune, e1, e2, e3, h0, h1, isCont_iff,
      h2, h3, if_false, if_true, and_self]

/-- A well-formed encoding has the width it says, between one and four. -/
theorem RuneAt.length {enc : GoString} {r n : Nat} (h : RuneAt enc r n) :
    enc.length = n ∧ 1 ≤ n := by
  cases h <;> simp

/-- A well-formed encoding is not `(RuneError, 1)`. -/
theorem RuneAt.valid {enc : GoString} {r n : Nat} (h : RuneAt enc r n) :
    ¬(r = RuneError ∧ n = 1) := by
  cases h with
  | one p0 h => simp only [RuneError]; omega
  | two => simp
  | three => simp
  | four => simp

/-- The head of a well-formed encoding, and whether the rune is ASCII. -/
theorem RuneAt.head {enc : GoString} {r n : Nat} (h : RuneAt enc r n) :
    ∃ p0 tl, enc = p0 :: tl ∧ (p0.val < 0x80 → tl = [] ∧ r = p0.val) := by
  cases h with
  | one p0 h => exact ⟨p0, [], rfl, fun _ => ⟨rfl, rfl⟩⟩
  | two p0 b1 h0 h1 => exact ⟨p0, _, rfl, fun h => by omega⟩
  | three p0 b1 b2 h0 h1 h2 => exact ⟨p0, _, rfl, fun h => by omega⟩
  | four p0 b1 b2 b3 h0 h1 h2 h3 => exact ⟨p0, _, rfl, fun h => by omega⟩

/-- `utf8.EncodeRune` gives back a well-formed encoding. -/
theorem RuneAt.encode {enc : GoString} {r n : Nat} (h : RuneAt enc r n) :
    encodeRune r = enc := by
  cases h with
  | one p0 h =>
    have : p0.val ≤ 0x7F := by omega
    simp [encodeRune, this, byte_val]
  | two p0 b1 h0 h1 =>
    have q0 := p0.isLt
    have q1 := b1.isLt
    unfold encodeRune
    rw [if_neg (by omega), if_pos (by omega)]
    rw [byte_eq_of_val _ p0 (by omega), byte_eq_of_val _ b1 (by omega)]
  | three p0 b1 b2 h0 h1 h2 =>
    have q0 := p0.isLt
    have q1 := b1.isLt
    have q2 := b2.isLt
    unfold acceptLo acceptHi at h1
    have k1 : 0x80 ≤ b1.val ∧ b1.val ≤ 0xBF ∧ (p0.val = 0xE0 → 0xA0 ≤ b1.val)
        ∧ (p0.val = 0xED → b1.val ≤ 0x9F) := by
      split_ifs at h1 <;> omega
    clear h1
    unfold encodeRune
    rw [if_neg (by omega), if_neg (by omega), if_neg (by omega), if_pos (by omega)]
    rw [byte_eq_of_val _ p0 (by omega), byte_eq_of_val _ b1 (by omega),
      byte_eq_of_val _ b2 (by omega)]
  | four p0 b1 b2 b3 h0 h1 h2 h3 =>
    have q0 := p0.isLt
    have q1 := b1.isLt
    have q2 := b2.isLt
    have q3 := b3.isLt
    unfold acceptLo acceptHi at h1
    have k1 : 0x80 ≤ b1.val ∧ b1.val ≤ 0xBF ∧ (p0.val = 0xF0 → 0x90 ≤ b1.val)
        ∧ (p0.val = 0xF4 → b1.val ≤ 0x8F) := by
      split_ifs at h1 <;> omega
    clear h1
    unfold encodeRune
    rw [if_neg (by omega), if_neg (by omega), if_neg (by omega), if_neg (by omega)]
    rw [byte_eq_of_val _ p0 (by omega), byte_eq_of_val _ b1 (by omega),
      byte_eq_of_val _ b2 (by omega), byte_eq_of_val _ b3 (by omega)]

/-- When `utf8.DecodeRune` does not report an error, the string starts with a
well-formed encoding. -/
theorem decodeRune_valid (s : GoString) (hs : s ≠ [])
    (h : ¬((decodeRune s).1 = RuneError ∧ (decodeRune s).2 = 1)) :
    ∃ enc tl r n, s = enc ++ tl ∧ RuneAt enc r n := by
  match s, hs with
  | p0 :: rest, _ =>
    by_cases c1 : p0.val < 0x80
    · exact ⟨[p0], rest, _, _, rfl, RuneAt.one p0 c1⟩
    · by_cases c2 : 0xC2 ≤ p0.val ∧ p0.val ≤ 0xDF
      · match rest with
        | [] => simp [decodeRune, c1, c2] at h
        | b1 :: r1 =>
          by_cases d1 : isCont b1 = true
          · exact ⟨[p0, b1], r1, _, _, rfl, RuneAt.two p0 b1 c2 ((isCont_iff b1).1 d1)⟩
          · simp [decodeRune, c1, c2, d1] at h
      · by_cases c3 : 0xE0 ≤ p0.val ∧ p0.val ≤ 0xEF
        · match rest with
          | [] => simp [decodeRune, c1, c2, c3] at h
          | [b1] => simp [decodeRune, c1, c2, c3] at h
          | b1 :: b2 :: r2 =>
            by_cases d1 : acceptLo p0 ≤ b1.val ∧ b1.val ≤ acceptHi p0 ∧ isCont b2 = true
            · exact ⟨[p0, b1, b2], r2, _, _, rfl,
                RuneAt.three p0 b1 b2 c3 ⟨d1.1, d1.2.1⟩ ((isCont_iff b2).1 d1.2.2)⟩
            · simp only [decodeRune, c1, c2, c3, d1, if_false, if_true, and_self,
                not_true_eq_false] at h
        · by_cases c4 : 0xF0 ≤ p0.val ∧ p0.val ≤ 0xF4
          · match rest with
            | [] => simp [decodeRune, c1, c2, c3, c4] at h
            | [b1] => simp [decodeRune, c1, c2, c3, c4] at h
            | [b1, b2] => simp [decodeRune, c1, c2, c3, c4] at h
            | b1 :: b2 :: b3 :: r3 =>
              by_cases d1 : acceptLo p0 ≤ b1.val ∧ b1.val ≤ acceptHi p0 ∧ isCont b2 = true
                  ∧ isCont b3 = true
              · exact ⟨[p0, b1, b2, b3], r3, _, _, rfl,
                  RuneAt.four p0 b1 b2 b3 c4 ⟨d1.1, d1.2.1⟩ ((isCont_iff b2).1 d1.2.2.1)
                    ((isCont_iff b3).1 d1.2.2.2)⟩
              · simp only [decodeRune, c1, c2, c3, c4, d1, if_false, if_true, and_self,
                  not_true_eq_false] at h
          · simp [decodeRune, c1, c2, c3, c4] at h

/-! ## JSON strings: writing and reading back -/

/-- `hex4` looks at four bytes. -/
theorem hex4_cons (a b c d : Byte) (tl : GoString) :
    hex4 (a :: b :: c :: d :: tl) = hex4 [a, b, c, d] := by
  simp [hex4]

set_option maxRecDepth 100000 in
/-- The escape `\u00XX` of an ASCII byte reads back as the byte. -/
theorem hex4_hexDigit :
    ∀ b : Byte, b.val < 0x80 →
      hex4 [0x30, 0x30, hexDigit (b.val / 16), hexDigit (b.val % 16)] = some b.val := by
  decide

/-- The encoding of an ASCII rune is its byte. -/
theorem encodeRune_ascii (b : Byte) (h : b.val < 0x80) : encodeRune b.val = [b] := by
  have : b.val ≤ 0x7F := by omega
  simp [encodeRune, this, byte_val]

/-- Reading a byte that `json.Marshal` copies as it is. -/
theorem parseStringBody_safe (fuel : Nat) (b : Byte) (tl acc : GoString)
    (hb : b.val < 0x80) (hs : htmlSafe b = true) :
    parseStringBody (fuel + 1) (b :: tl) acc = parseStringBody fuel tl (acc ++ [b]) := by
  simp only [htmlSafe, Bool.and_eq_true, decide_eq_true_eq] at hs
  obtain ⟨⟨⟨⟨⟨h1, h2⟩, h3⟩, -⟩, -⟩, -⟩ := hs
  have h4 : ¬ b.val < 0x20 := by omega
  simp only [parseStringBody, h2, h3, h4, hb, if_false, if_true]

/-- Reading the escape `json.Marshal` writes for an ASCII byte it does not copy. -/
theorem parseStringBody_escape (fuel : Nat) (b : Byte) (tl acc : GoString)
    (hb : b.val < 0x80) :
    parseStringBody (fuel + 1) (escapeByte b ++ tl) acc
      = parseStringBody fuel tl (acc ++ [b]) := by
  unfold escapeByte
  by_cases c1 : b.val = 0x5C ∨ b.val = 0x22
  · rw [if_pos c1]
    have : b.val = 0x22 ∨ b.val = 0x5C ∨ b.val = 0x2F := by omega
    simp +decide [parseStringBody, this]
  · rw [if_neg c1]
    by_cases c2 : b.val = 0x08
    · rw [if_pos c2]
      have : b = 0x08 := Fin.ext c2
      subst this
      simp +decide [parseStringBody]
    · rw [if_neg c2]
      by_cases c3 : b.val = 0x0C
      · rw [if_pos c3]
        have : b = 0x0C := Fin.ext c3
        subst this
        simp +decide [parseStringBody]
      · rw [if_neg c3]
        by_cases c4 : b.val = 0x0A
        · rw [if_pos c4]
          have : b = 0x0A := Fin.ext c4
          subst this
          simp +decide [parseStringBody]
        · rw [if_neg c4]
          by_cases c5 : b.val = 0x0D
          · rw [if_pos c5]
            have : b = 0x0D := Fin.ext c5
            subst this
            simp +decide [parseStringBody]
          · rw [if_neg c5]
            by_cases c6 : b.val = 0x09
            · rw [if_pos c6]
              have : b = 0x09 := Fin.ext c6
              subst this
              simp +decide [parseStringBody]
            · rw [if_neg c6]
              have e1 : hex4 (0x30 :: 0x30 :: hexDigit (b.val / 16) :: hexDigit (b.val % 16) :: tl)
                  = some b.val := by
                rw [hex4_cons]
                exact hex4_hexDigit b hb
              have e2 : ¬ (0xD800 ≤ b.val ∧ b.val < 0xE000) := by omega
              simp +decide [parseStringBody, e1, e2, encodeRune_ascii b hb]

/-- A rune is ASCII exactly when the lead byte of its encoding is. -/
theorem RuneAt.rune_ge {enc : GoString} {r n : Nat} (h : RuneAt enc r n) :
    ∀ p0 tl, enc = p0 :: tl → (0x80 ≤ p0.val → 0x80 ≤ r) := by
  intro p tl he hp
  cases h with
  | one p0 h0 =>
    simp only [List.cons.injEq] at he
    rw [he.1] at h0
    omega
  | two p0 b1 h0 h1 => omega
  | three p0 b1 b2 h0 h1 h2 =>
    unfold acceptLo acceptHi at h1
    split_ifs at h1 <;> omega
  | four p0 b1 b2 b3 h0 h1 h2 h3 =>
    unfold acceptLo acceptHi at h1
    split_ifs at h1 <;> omega

/-- Reading a well-formed rune past ASCII that `json.Marshal` copies as it is. -/
theorem parseStringBody_rune (fuel : Nat) (enc tl acc : GoString) (r n : Nat)
    (h : RuneAt enc r n) (hr : 0x80 ≤ r) :
    parseStringBody (fuel + 1) (enc ++ tl) acc = parseStringBody fuel tl (acc ++ enc) := by
  have hd := h.decode tl
  have hl := h.length
  have he := h.encode
  obtain ⟨p0, tl0, hp, hascii⟩ := h.head
  have c1 : ¬ p0.val < 0x80 := by
    intro c
    have := (hascii c).2
    omega
  subst hp
  rw [List.cons_append] at hd ⊢
  have c2 : ¬ p0.val = 0x22 := by omega
  have c3 : ¬ p0.val = 0x5C := by omega
  have c4 : ¬ p0.val < 0x20 := by omega
  simp only [parseStringBody, c1, c2, c3, c4, if_false, hd, he]
  congr 1
  rw [← List.cons_append, ← hl.1, List.drop_left]

/-- Reading the escape `json.Marshal` writes for U+2028 and U+2029. -/
theorem parseStringBody_linesep (fuel : Nat) (tl acc : GoString) (r : Nat)
    (hr : r = 0x2028 ∨ r = 0x2029) :
    parseStringBody (fuel + 1) ([0x5C, 0x75, 0x32, 0x30, 0x32, hexDigit (r % 16)] ++ tl) acc
      = parseStringBody fuel tl (acc ++ encodeRune r) := by
  rcases hr with hr | hr <;> subst hr <;>
    simp +decide [parseStringBody, hex4, hexVal, hexDigit, byte] <;> rfl

/-- One step of `validUTF8Aux`. -/
theorem validUTF8Aux_cons (fuel : Nat) (b : Byte) (t : GoString)
    (h : validUTF8Aux (fuel + 1) (b :: t) = true) :
    ∃ enc tl r n, b :: t = enc ++ tl ∧ RuneAt enc r n ∧ validUTF8Aux fuel tl = true := by
  simp only [validUTF8Aux] at h
  by_cases hv : (decodeRune (b :: t)).1 = RuneError ∧ (decodeRune (b :: t)).2 = 1
  · simp [hv] at h
  · rw [if_neg hv] at h
    obtain ⟨enc, tl, r, n, hs, hr⟩ := decodeRune_valid (b :: t) (by simp) hv
    refine ⟨enc, tl, r, n, hs, hr, ?_⟩
    have hd := hr.decode tl
    rw [← hs] at hd
    rw [hd, hs, ← hr.length.1, List.drop_left] at h
    exact h

/-- One step of `appendStringBody` at a well-formed rune. -/
theorem appendStringBody_rune (fuel : Nat) (enc tl : GoString) (r n : Nat)
    (h : RuneAt enc r n) :
    appendStringBody (fuel + 1) (enc ++ tl)
      = (if r < 0x80 then (match enc with
            | [b] => if htmlSafe b then [b] else escapeByte b
            | _ => [])
          else if r = 0x2028 ∨ r = 0x2029 then
            [0x5C, 0x75, 0x32, 0x30, 0x32, hexDigit (r % 16)]
          else enc) ++ appendStringBody fuel tl := by
  have hd := h.decode tl
  have hl := h.length
  have hv := h.valid
  obtain ⟨p0, tl0, hp, hascii⟩ := h.head
  subst hp
  rw [List.cons_append] at hd ⊢
  by_cases c1 : p0.val < 0x80
  · obtain ⟨e1, e2⟩ := hascii c1
    subst e1
    have : r < 0x80 := by omega
    simp only [appendStringBody, c1, this, if_true, List.nil_append]
  · have hr : ¬ r < 0x80 := by
      have := h.rune_ge p0 tl0 rfl
      omega
    simp only [appendStringBody, c1, if_false, hd, hv, hr]
    have hdrop : List.drop n (p0 :: (tl0 ++ tl)) = tl := by
      rw [← List.cons_append, ← hl.1, List.drop_left]
    have htake : List.take n (p0 :: (tl0 ++ tl)) = p0 :: tl0 := by
      rw [← List.cons_append, ← hl.1, List.take_left]
    rw [hdrop, htake]
    split_ifs <;> rfl

/-- The escape of a byte is not empty. -/
theorem escapeByte_length (b : Byte) : 1 ≤ (escapeByte b).length := by
  unfold escapeByte
  split_ifs <;> simp

/-- A string literal written by `json.Marshal` for a well-formed UTF-8 string reads
back as the string, with any fuel that covers it. -/
theorem parseStringBody_appendStringBody (k : Nat) :
    ∀ (s : GoString) (fv fe fd : Nat) (acc rest : GoString), s.length ≤ k →
      s.length ≤ fe → validUTF8Aux fv s = true → (appendStringBody fe s).length < fd →
      parseStringBody fd (appendStringBody fe s ++ 0x22 :: rest) acc
        = some (acc ++ s, rest) := by
  induction k with
  | zero =>
    intro s fv fe fd acc rest hk _ _ hfd
    have hs : s = [] := List.length_eq_zero.1 (by omega)
    subst hs
    have he : appendStringBody fe [] = [] := by cases fe <;> rfl
    rw [he] at hfd ⊢
    obtain ⟨fd, rfl⟩ : ∃ m, fd = m + 1 := ⟨fd - 1, by simp at hfd; omega⟩
    simp +decide [parseStringBody]
  | succ k ih =>
    intro s fv fe fd acc rest hk hfe hv hfd
    match s, fv, fe with
    | [], _, fe =>
      have he : appendStringBody fe [] = [] := by cases fe <;> rfl
      rw [he] at hfd ⊢
      obtain ⟨fd, rfl⟩ : ∃ m, fd = m + 1 := ⟨fd - 1, by simp at hfd; omega⟩
      simp +decide [parseStringBody]
    | b :: t, 0, _ => simp [validUTF8Aux] at hv
    | b :: t, _, 0 => simp at hfe
    | b :: t, fv + 1, fe + 1 =>
      obtain ⟨enc, tl, r, n, hs, hr, hvt⟩ := validUTF8Aux_cons fv b t hv
      have hl := hr.length
      have hlen : (b :: t).length = enc.length + tl.length := by rw [hs, List.length_append]
      simp only [List.length_cons] at hk hfe hlen
      rw [hs] at hfd ⊢
      rw [appendStringBody_rune fe enc tl r n hr] at hfd ⊢
      rw [List.length_append] at hfd
      obtain ⟨fd, rfl⟩ : ∃ m, fd = m + 1 := ⟨fd - 1, by omega⟩
      rw [List.append_assoc]
      by_cases c1 : r < 0x80
      · rw [if_pos c1] at hfd ⊢
        cases hr with
        | one p0 h0 =>
          simp only at hfd ⊢
          by_cases c2 : htmlSafe p0 = true
          · rw [if_pos c2] at hfd ⊢
            rw [List.cons_append, List.nil_append, parseStringBody_safe fd p0 _ acc h0 c2]
            rw [ih tl fv fe fd (acc ++ [p0]) rest (by simp at hlen; omega)
              (by simp at hlen; omega) hvt (by simp at hfd; omega)]
            simp
          · rw [if_neg c2] at hfd ⊢
            have := escapeByte_length p0
            rw [parseStringBody_escape fd p0 _ acc h0]
            rw [ih tl fv fe fd (acc ++ [p0]) rest (by simp at hlen; omega)
              (by simp at hlen; omega) hvt (by omega)]
            simp
        | two p0 b1 h0 h1 => omega
        | three p0 b1 b2 h0 h1 h2 =>
          have := (RuneAt.three p0 b1 b2 h0 h1 h2).rune_ge p0 _ rfl (by omega)
          omega
        | four p0 b1 b2 b3 h0 h1 h2 h3 =>
          have := (RuneAt.four p0 b1 b2 b3 h0 h1 h2 h3).rune_ge p0 _ rfl (by omega)
          omega
      · rw [if_neg c1] at hfd ⊢
        by_cases c2 : r = 0x2028 ∨ r = 0x2029
        · rw [if_pos c2] at hfd ⊢
          rw [parseStringBody_linesep fd _ acc r c2, hr.encode]
          rw [ih tl fv fe fd (acc ++ enc) rest (by omega) (by omega) hvt
            (by simp at hfd; omega)]
          simp
        · rw [if_neg c2] at hfd ⊢
          rw [parseStringBody_rune fd enc _ acc r n hr (by omega)]
          rw [ih tl fv fe fd (acc ++ enc) rest (by omega) (by omega) hvt (by omega)]
          simp

/-- The string literal `json.Marshal` writes for a well-formed UTF-8 string, followed
by anything, reads back as the string and what follows. -/
theorem parseString_appendString (s rest : GoString) (h : validUTF8 s = true) :
    parseString (appendStringBody s.length s ++ 0x22 :: rest) = some (s, rest) := by
  unfold parseString
  rw [parseStringBody_appendStringBody s.length s s.length s.length _ [] rest (le_refl _)
    (le_refl _) h (by simp; omega)]
  simp

/-! ## Numbers: writing and reading back -/

/-- The byte of a decimal digit is a digit. -/
theorem isDigit_byte (n : Nat) (h : n < 10) :
    isDigit (byte (0x30 + n)) = true ∧ (byte (0x30 + n)).val = 0x30 + n := by
  have e : (byte (0x30 + n)).val = 0x30 + n := by
    simp only [byte]
    omega
  refine ⟨?_, e⟩
  simp only [isDigit, Bool.and_eq_true, decide_eq_true_eq]
  rw [e]
  omega

/-- Reading one more digit. -/
theorem parseDigits_snoc (ds : GoString) (d : Byte) (hd : isDigit d = true) :
    ∀ a v, parseDigits ds a = some v →
      parseDigits (ds ++ [d]) a = some (v * 10 + (d.val - 0x30)) := by
  induction ds with
  | nil =>
    intro a v h
    simp only [parseDigits, Option.some.injEq] at h
    simp [parseDigits, hd, h]
  | cons x xs ih =>
    intro a v h
    simp only [parseDigits, List.cons_append] at h ⊢
    by_cases hx : isDigit x = true
    · rw [if_pos hx] at h ⊢
      exact ih _ _ h
    · rw [if_neg hx] at h
      cases h

/-- The digits `digitsAux` writes: in front of `acc`, not empty, all digits,
without a leading zero, and they read back as the number. -/
theorem digitsAux_spec (fuel : Nat) :
    ∀ (n : Nat) (acc : GoString), n < fuel →
      ∃ ds, digitsAux fuel n acc = ds ++ acc ∧ (∀ d ∈ ds, isDigit d = true)
        ∧ parseDigits ds 0 = some n
        ∧ (n = 0 → ds = [0x30])
        ∧ (0 < n → ∃ d tl, ds = d :: tl ∧ 0x31 ≤ d.val ∧ d.val ≤ 0x39) := by
  induction fuel with
  | zero => intro n acc h; omega
  | succ fuel ih =>
    intro n acc h
    by_cases c : n < 10
    · obtain ⟨h1, h2⟩ := isDigit_byte n c
      refine ⟨[byte (0x30 + n)], ?_, ?_, ?_, ?_, ?_⟩
      · simp [digitsAux, c]
      · intro d hd
        simp only [List.mem_singleton] at hd
        rw [hd]
        exact h1
      · simp [parseDigits, h1, h2]
      · intro h0
        subst h0
        rfl
      · intro hpos
        exact ⟨_, [], rfl, by omega, by omega⟩
    · obtain ⟨ds, e1, e2, e3, -, e5⟩ := ih (n / 10) (byte (0x30 + n % 10) :: acc) (by omega)
      obtain ⟨h1, h2⟩ := isDigit_byte (n % 10) (by omega)
      refine ⟨ds ++ [byte (0x30 + n % 10)], ?_, ?_, ?_, ?_, ?_⟩
      · simp [digitsAux, c, e1]
      · intro d hd
        rcases List.mem_append.1 hd with hd | hd
        · exact e2 d hd
        · simp only [List.mem_singleton] at hd
          rw [hd]
          exact h1
      · rw [parseDigits_snoc ds _ h1 0 _ e3, h2]
        congr 1
        omega
      · intro h0
        omega
      · intro _
        obtain ⟨d, tl, e, r1, r2⟩ := e5 (by omega)
        exact ⟨d, tl ++ [byte (0x30 + n % 10)], by rw [e]; rfl, r1, r2⟩

/-- The digits `formatNat` writes. -/
theorem formatNat_spec (n : Nat) :
    (∀ d ∈ formatNat n, isDigit d = true) ∧ parseDigits (formatNat n) 0 = some n
      ∧ (n = 0 → formatNat n = [0x30])
      ∧ (0 < n → ∃ d tl, formatNat n = d :: tl ∧ 0x31 ≤ d.val ∧ d.val ≤ 0x39) := by
  obtain ⟨ds, e1, e2⟩ := digitsAux_spec (n + 1) n [] (by omega)
  unfold formatNat
  rw [e1, List.append_nil]
  exact e2

/-- `takeDigits` stops at the first byte that is no digit. -/
theorem takeDigits_append (ds : GoString) (c : Byte) (rest : GoString)
    (hds : ∀ d ∈ ds, isDigit d = true) (hc : isDigit c = false) :
    takeDigits (ds ++ c :: rest) = (ds, c :: rest) := by
  induction ds with
  | nil => simp [takeDigits, hc]
  | cons x xs ih =>
    have hx := hds x (List.mem_cons_self _ _)
    have := ih (fun d hd => hds d (List.mem_cons_of_mem _ hd))
    simp [takeDigits, hx, this]

/-- The integer part of a number `formatNat` wrote, before a comma. -/
theorem scanIntPart_formatNat (n : Nat) (rest : GoString) :
    scanIntPart (formatNat n ++ 0x2C :: rest) = some (formatNat n, 0x2C :: rest) := by
  obtain ⟨h1, -, h3, h4⟩ := formatNat_spec n
  by_cases c : n = 0
  · rw [h3 c]
    simp +decide [scanIntPart]
  · obtain ⟨d, tl, e, r1, r2⟩ := h4 (by omega)
    rw [e] at h1 ⊢
    have hz : ¬ d.val = 0x30 := by omega
    have ht := takeDigits_append tl 0x2C rest
      (fun x hx => h1 x (List.mem_cons_of_mem _ hx)) (by decide)
    simp only [List.cons_append, scanIntPart, hz, if_false, r1, r2, and_self, if_true, ht]

/-- A number `strconv.Itoa` wrote, before a comma, is scanned whole. -/
theorem scanNumber_Itoa (i : Int) (rest : GoString) :
    scanNumber (Itoa i ++ 0x2C :: rest) = some (Itoa i, 0x2C :: rest) := by
  unfold Itoa
  by_cases c : i < 0
  · rw [if_pos c]
    have h := scanIntPart_formatNat i.natAbs rest
    simp +decide [scanNumber, h, scanFraction, scanExponent]
  · rw [if_neg c]
    have h := scanIntPart_formatNat i.toNat rest
    obtain ⟨h1, -, h3, h4⟩ := formatNat_spec i.toNat
    have hhead : ∃ d tl, formatNat i.toNat = d :: tl ∧ d.val ≠ 0x2D := by
      by_cases c0 : i.toNat = 0
      · exact ⟨0x30, [], h3 c0, by decide⟩
      · obtain ⟨d, tl, e, r1, r2⟩ := h4 (by omega)
        exact ⟨d, tl, e, by omega⟩
    obtain ⟨d, tl, e, hd⟩ := hhead
    rw [e] at h ⊢
    rw [List.cons_append] at h
    simp +decide [scanNumber, hd, h, scanFraction, scanExponent]

/-- A number `strconv.Itoa` wrote reads back through `strconv.ParseInt` when it is
in the range of `int64`. -/
theorem parseInt64_Itoa (i : Int) (h : -2 ^ 63 ≤ i ∧ i < 2 ^ 63) :
    parseInt64 (Itoa i) = some i := by
  unfold Itoa
  by_cases c : i < 0
  · rw [if_pos c]
    obtain ⟨h1, h2, h3, h4⟩ := formatNat_spec i.natAbs
    obtain ⟨d, tl, e, -, -⟩ := h4 (by omega)
    rw [e] at h2
    have hle : i.natAbs ≤ 2 ^ 63 := by omega
    simp +decide [parseInt64, e, h2, hle]
    refine ⟨by omega, ?_⟩
    rw [abs_of_neg c, neg_neg]
  · rw [if_neg c]
    obtain ⟨h1, h2, h3, h4⟩ := formatNat_spec i.toNat
    have hhead : ∃ d tl, formatNat i.toNat = d :: tl ∧ d.val ≠ 0x2D := by
      by_cases c0 : i.toNat = 0
      · exact ⟨0x30, [], h3 c0, by decide⟩
      · obtain ⟨d, tl, e, r1, r2⟩ := h4 (by omega)
        exact ⟨d, tl, e, by omega⟩
    obtain ⟨d, tl, e, hd⟩ := hhead
    rw [e] at h2 ⊢
    have hlt : i.toNat < 2 ^ 63 := by omega
    simp +decide [parseInt64, hd, h2, hlt]
    omega

/-! ## The document: writing and reading back -/

/-- The first byte of a number `strconv.Itoa` wrote: a minus sign or a digit. -/
theorem Itoa_head (i : Int) :
    ∃ d tl, Itoa i = d :: tl ∧ (d.val = 0x2D ∨ (0x30 ≤ d.val ∧ d.val ≤ 0x39)) := by
  unfold Itoa
  by_cases c : i < 0
  · rw [if_pos c]
    exact ⟨0x2D, _, rfl, Or.inl rfl⟩
  · rw [if_neg c]
    obtain ⟨-, -, h3, h4⟩ := formatNat_spec i.toNat
    by_cases c0 : i.toNat = 0
    · exact ⟨0x30, [], h3 c0, Or.inr (by decide)⟩
    · obtain ⟨d, tl, e, r1, r2⟩ := h4 (by omega)
      exact ⟨d, tl, e, Or.inr (by omega)⟩

/-- A string value written by `json.Marshal` is read as that string. -/
theorem parseValue_string (fuel depth : Nat) (s rest : GoString) (h : validUTF8 s = true) :
    parseValue (fuel + 1) depth (0x22 :: (appendStringBody s.length s ++ 0x22 :: rest))
      = some (JSON.str s, rest) := by
  simp +decide [parseValue, parseString_appendString s rest h]

/-- A number value written by `json.Marshal`, before a comma, is read as that
number. -/
theorem parseValue_number (fuel depth : Nat) (i : Int) (rest : GoString) :
    parseValue (fuel + 1) depth (Itoa i ++ 0x2C :: rest)
      = some (JSON.num (Itoa i), 0x2C :: rest) := by
  have hs := scanNumber_Itoa i rest
  obtain ⟨d, tl, e, hd⟩ := Itoa_head i
  rw [e] at hs ⊢
  rw [List.cons_append] at hs ⊢
  have c1 : ¬ d.val = 0x7B := by omega
  have c2 : ¬ d.val = 0x5B := by omega
  have c3 : ¬ d.val = 0x22 := by omega
  have c4 : ¬ d.val = 0x74 := by omega
  have c5 : ¬ d.val = 0x66 := by omega
  have c6 : ¬ d.val = 0x6E := by omega
  simp only [parseValue, c1, c2, c3, c4, c5, c6, if_false, hs]

/-- No white space leads a number `strconv.Itoa` wrote. -/
theorem skipSpace_Itoa (i : Int) (rest : GoString) :
    skipSpace (Itoa i ++ rest) = Itoa i ++ rest := by
  obtain ⟨d, tl, e, hd⟩ := Itoa_head i
  rw [e, List.cons_append]
  have : isSpace d = false := by
    simp only [isSpace, Bool.or_eq_false_iff, decide_eq_false_iff_not]
    omega
  simp [skipSpace, this]

/-- Reading one member of an object: a key that needs no escape, a colon, a value
that starts without white space, and a comma or the closing brace. -/
theorem parseMembers_member (fuel depth : Nat) (key vb rest : GoString) (v : JSON)
    (sep : Byte) (acc : List (GoString × JSON))
    (hk1 : appendStringBody key.length key = key) (hk2 : validUTF8 key = true)
    (hsp : skipSpace (vb ++ sep :: rest) = vb ++ sep :: rest)
    (hval : parseValue (fuel + 1) depth (vb ++ sep :: rest) = some (v, sep :: rest))
    (hsep : isSpace sep = false) :
    parseMembers (fuel + 2) depth (0x22 :: (key ++ 0x22 :: 0x3A :: (vb ++ sep :: rest))) acc
      = if sep.val = 0x2C then parseMembers (fuel + 1) depth (skipSpace rest) (acc ++ [(key, v)])
        else if sep.val = 0x7D then some (JSON.obj (acc ++ [(key, v)]), rest)
        else none := by
  have hkey := parseString_appendString key (0x3A :: (vb ++ sep :: rest)) hk2
  rw [hk1] at hkey
  simp +decide [parseMembers, hkey, skipSpace, hsp, hval, hsep]

/-- A string literal written by `json.Marshal` is read as that string. -/
theorem parseValue_appendString (fuel depth : Nat) (s rest : GoString)
    (h : validUTF8 s = true) :
    parseValue (fuel + 1) depth (appendString s ++ rest) = some (JSON.str s, rest) := by
  have := parseValue_string fuel depth s rest h
  simpa [appendString, List.append_assoc] using this

/-- No white space leads a string literal. -/
theorem skipSpace_appendString (s rest : GoString) :
    skipSpace (appendString s ++ rest) = appendString s ++ rest := by
  simp +decide [appendString, skipSpace, isSpace]

/-- The bytes `json.Marshal` writes for the record, with the keys and the
punctuation spelled out. -/
theorem jsonMarshal_eq (t : GetTokenResponse) :
    jsonMarshal t
      = 0x7B :: 0x22 :: (str "access_token" ++ 0x22 :: 0x3A ::
          (appendString t.AccessToken ++ 0x2C ::
          0x22 :: (str "refresh_token" ++ 0x22 :: 0x3A ::
          (appendString t.RefreshToken ++ 0x2C ::
          0x22 :: (str "expires_in" ++ 0x22 :: 0x3A ::
          (Itoa t.ExpiresIn ++ 0x2C ::
          0x22 :: (str "token_type" ++ 0x22 :: 0x3A ::
          (appendString t.TokenType ++ 0x7D :: [])))))))) := by
  have c1 : str "\x7b\"access_token\":" = 0x7B :: 0x22 :: (str "access_token" ++ [0x22, 0x3A]) := by
    decide
  have c2 : str ",\"refresh_token\":" = 0x2C :: 0x22 :: (str "refresh_token" ++ [0x22, 0x3A]) := by
    decide
  have c3 : str ",\"expires_in\":" = 0x2C :: 0x22 :: (str "expires_in" ++ [0x22, 0x3A]) := by
    decide
  have c4 : str ",\"token_type\":" = 0x2C :: 0x22 :: (str "token_type" ++ [0x22, 0x3A]) := by
    decide
  have c5 : str "\x7d" = [0x7D] := by decide
  unfold jsonMarshal
  rw [c1, c2, c3, c4, c5]
  simp only [List.cons_append, List.append_assoc, List.nil_append]

/-- The document `json.Marshal` writes for the record is read as an object with the
four members, when the three strings are well-formed UTF-8. -/
theorem parseValue_jsonMarshal (t : GetTokenResponse) (fuel : Nat)
    (hA : validUTF8 t.AccessToken = true) (hR : validUTF8 t.RefreshToken = true)
    (hT : validUTF8 t.TokenType = true) :
    parseValue (fuel + 6) 0 (jsonMarshal t)
      = some (JSON.obj [(str "access_token", JSON.str t.AccessToken),
          (str "refresh_token", JSON.str t.RefreshToken),
          (str "expires_in", JSON.num (Itoa t.ExpiresIn)),
          (str "token_type", JSON.str t.TokenType)], []) := by
  rw [jsonMarshal_eq]
  have e0 : ∀ rest, parseValue (fuel + 6) 0 (0x7B :: 0x22 :: rest)
      = parseMembers (fuel + 3 + 2) 1 (0x22 :: rest) [] := by
    intro rest
    simp +decide [parseValue, skipSpace, isSpace, maxNestingDepth]
  rw [e0]
  rw [parseMembers_member (fuel + 3) 1 (str "access_token") (appendString t.AccessToken) _
    (JSON.str t.AccessToken) 0x2C [] (by decide) (by decide) (skipSpace_appendString _ _)
    (parseValue_appendString _ _ _ _ hA) (by decide)]
  rw [if_pos (by decide)]
  have s1 : ∀ rest : GoString, skipSpace (0x22 :: rest) = 0x22 :: rest := by
    intro rest
    simp +decide [skipSpace, isSpace]
  rw [s1]
  rw [parseMembers_member (fuel + 2) 1 (str "refresh_token") (appendString t.RefreshToken) _
    (JSON.str t.RefreshToken) 0x2C _ (by decide) (by decide) (skipSpace_appendString _ _)
    (parseValue_appendString _ _ _ _ hR) (by decide)]
  rw [if_pos (by decide), s1]
  rw [parseMembers_member (fuel + 1) 1 (str "expires_in") (Itoa t.ExpiresIn) _
    (JSON.num (Itoa t.ExpiresIn)) 0x2C _ (by decide) (by decide) (skipSpace_Itoa _ _)
    (parseValue_number _ _ _ _) (by decide)]
  rw [if_pos (by decide), s1]
  rw [parseMembers_member fuel 1 (str "token_type") (appendString t.TokenType) _
    (JSON.str t.TokenType) 0x7D _ (by decide) (by decide) (skipSpace_appendString _ _)
    (parseValue_appendString _ _ _ _ hT) (by decide)]
  rw [if_neg (by decide), if_pos (by decide)]
  rfl

/-- Reading back what `json.Marshal` wrote gives the record, when its three strings
are well-formed UTF-8 and its expiry is in the range of `int`. -/
theorem jsonUnmarshal_jsonMarshal (t : GetTokenResponse)
    (hA : validUTF8 t.AccessToken = true) (hR : validUTF8 t.RefreshToken = true)
    (hT : validUTF8 t.TokenType = true)
    (hI : -2 ^ 63 ≤ t.ExpiresIn ∧ t.ExpiresIn < 2 ^ 63) :
    jsonUnmarshal (jsonMarshal t) = (some t, none) := by
  have hlen : 5 ≤ (jsonMarshal t).length := by
    rw [jsonMarshal_eq]
    simp only [List.length_cons, List.length_append]
    omega
  have hp : parseJSON (jsonMarshal t)
      = some (JSON.obj [(str "access_token", JSON.str t.AccessToken),
          (str "refresh_token", JSON.str t.RefreshToken),
          (str "expires_in", JSON.num (Itoa t.ExpiresIn)),
          (str "token_type", JSON.str t.TokenType)]) := by
    unfold parseJSON
    have hs : skipSpace (jsonMarshal t) = jsonMarshal t := by
      rw [jsonMarshal_eq]
      simp +decide [skipSpace, isSpace]
    have hf : (jsonMarshal t).length + 1 = ((jsonMarshal t).length - 5) + 6 := by omega
    rw [hs, hf, parseValue_jsonMarshal t _ hA hR hT]
    simp [skipSpace]
  unfold jsonUnmarshal
  rw [hp]
  have f1 : fieldOf (str "access_token") = some Field.accessToken := by decide
  have f2 : fieldOf (str "refresh_token") = some Field.refreshToken := by decide
  have f3 : fieldOf (str "expires_in") = some Field.expiresIn := by decide
  have f4 : fieldOf (str "token_type") = some Field.tokenType := by decide
  simp only [decodeToken, List.foldl, storeMember, f1, f2, f3, f4, storeString, storeInt,
    parseInt64_Itoa t.ExpiresIn hI, saveError, GetTokenResponse.zero]

/-! ## What `json.Unmarshal` stores is well formed -/

/-- What `utf8.EncodeRune` writes is a well-formed rune, whatever the rune. -/
theorem encodeRune_runeAt (r : Nat) : ∃ r1 n, RuneAt (encodeRune r) r1 n := by
  unfold encodeRune
  by_cases c1 : r ≤ 0x7F
  · rw [if_pos c1]
    have e : (byte r).val = r := by
      simp only [byte]
      omega
    exact ⟨_, _, RuneAt.one (byte r) (by omega)⟩
  · rw [if_neg c1]
    by_cases c2 : r ≤ 0x7FF
    · rw [if_pos c2]
      have e0 : (byte (0xC0 + r / 64)).val = 0xC0 + r / 64 := by
        simp only [byte]
        omega
      have e1 : (byte (0x80 + r % 64)).val = 0x80 + r % 64 := by
        simp only [byte]
        omega
      exact ⟨_, _, RuneAt.two _ _ (by omega) (by omega)⟩
    · rw [if_neg c2]
      by_cases c3 : 0x10FFFF < r ∨ (0xD800 ≤ r ∧ r ≤ 0xDFFF)
      · rw [if_pos c3]
        exact ⟨_, _, RuneAt.three 0xEF 0xBF 0xBD (by decide) (by decide) (by decide)⟩
      · rw [if_neg c3]
        by_cases c4 : r ≤ 0xFFFF
        · rw [if_pos c4]
          have e0 : (byte (0xE0 + r / 4096)).val = 0xE0 + r / 4096 := by
            simp only [byte]
            omega
          have e1 : (byte (0x80 + r / 64 % 64)).val = 0x80 + r / 64 % 64 := by
            simp only [byte]
            omega
          have e2 : (byte (0x80 + r % 64)).val = 0x80 + r % 64 := by
            simp only [byte]
            omega
          refine ⟨_, _, RuneAt.three _ _ _ (by omega) ?_ (by omega)⟩
          unfold acceptLo acceptHi
          split_ifs <;> omega
        · rw [if_neg c4]
          have e0 : (byte (0xF0 + r / 262144)).val = 0xF0 + r / 262144 := by
            simp only [byte]
            omega
          have e1 : (byte (0x80 + r / 4096 % 64)).val = 0x80 + r / 4096 % 64 := by
            simp only [byte]
            omega
          have e2 : (byte (0x80 + r / 64 % 64)).val = 0x80 + r / 64 % 64 := by
            simp only [byte]
            omega
          have e3 : (byte (0x80 + r % 64)).val = 0x80 + r % 64 := by
            simp only [byte]
            omega
          refine ⟨_, _, RuneAt.four _ _ _ _ (by omega) ?_ (by omega) (by omega)⟩
          unfold acceptLo acceptHi
          split_ifs <;> omega

/-- Two well-formed strings make a well-formed string. -/
theorem WellFormed.append {a b : GoString} (ha : WellFormed a) (hb : WellFormed b) :
    WellFormed (a ++ b) := by
  induction ha with
  | nil => exact hb
  | cons enc tl r n h _ ih =>
    rw [List.append_assoc]
    exact WellFormed.cons enc (tl ++ b) r n h ih

/-- An ASCII byte is a well-formed string. -/
theorem WellFormed.ascii (b : Byte) (h : b.val < 0x80) : WellFormed [b] := by
  have := WellFormed.cons [b] [] _ _ (RuneAt.one b h) WellFormed.nil
  simpa using this

/-- What `utf8.EncodeRune` writes is a well-formed string. -/
theorem WellFormed.ofEncodeRune (r : Nat) : WellFormed (encodeRune r) := by
  obtain ⟨r1, n, h⟩ := encodeRune_runeAt r
  have := WellFormed.cons _ [] _ _ h WellFormed.nil
  simpa using this

/-- A well-formed string passes `utf8.ValidString`. -/
theorem WellFormed.passes {s : GoString} (h : WellFormed s) :
    ∀ fuel, s.length ≤ fuel → validUTF8Aux fuel s = true := by
  induction h with
  | nil => intro fuel _; cases fuel <;> rfl
  | cons enc tl r n h _ ih =>
    intro fuel hf
    obtain ⟨p0, tl0, hp, -⟩ := h.head
    have hl := h.length
    have hd := h.decode tl
    have hv := h.valid
    subst hp
    rw [List.length_append] at hf
    obtain ⟨fuel, rfl⟩ : ∃ m, fuel = m + 1 := ⟨fuel - 1, by omega⟩
    rw [List.cons_append] at hd ⊢
    simp only [validUTF8Aux, hd, hv, if_false]
    rw [← List.cons_append, ← hl.1, List.drop_left]
    exact ih fuel (by omega)

/-- The bytes `unquote` gives are well-formed UTF-8. -/
theorem parseStringBody_wellFormed (fuel : Nat) :
    ∀ (s acc out rest : GoString), WellFormed acc →
      parseStringBody fuel s acc = some (out, rest) → WellFormed out := by
  induction fuel with
  | zero => intro s acc out rest _ h; simp [parseStringBody] at h
  | succ fuel ih =>
    intro s acc out rest hacc h
    match s with
    | [] => simp [parseStringBody] at h
    | c :: tl =>
      simp only [parseStringBody] at h
      by_cases c1 : c.val = 0x22
      · rw [if_pos c1] at h
        simp only [Option.some.injEq, Prod.mk.injEq] at h
        rw [← h.1]
        exact hacc
      · rw [if_neg c1] at h
        by_cases c2 : c.val = 0x5C
        · rw [if_pos c2] at h
          match tl with
          | [] => simp at h
          | e :: tl2 =>
            simp only at h
            by_cases d1 : e.val = 0x22 ∨ e.val = 0x5C ∨ e.val = 0x2F
            · rw [if_pos d1] at h
              exact ih _ _ _ _ (hacc.append (WellFormed.ascii e (by omega))) h
            · rw [if_neg d1] at h
              by_cases d2 : e.val = 0x62
              · rw [if_pos d2] at h
                exact ih _ _ _ _ (hacc.append (WellFormed.ascii 0x08 (by decide))) h
              · rw [if_neg d2] at h
                by_cases d3 : e.val = 0x66
                · rw [if_pos d3] at h
                  exact ih _ _ _ _ (hacc.append (WellFormed.ascii 0x0C (by decide))) h
                · rw [if_neg d3] at h
                  by_cases d4 : e.val = 0x6E
                  · rw [if_pos d4] at h
                    exact ih _ _ _ _ (hacc.append (WellFormed.ascii 0x0A (by decide))) h
                  · rw [if_neg d4] at h
                    by_cases d5 : e.val = 0x72
                    · rw [if_pos d5] at h
                      exact ih _ _ _ _ (hacc.append (WellFormed.ascii 0x0D (by decide))) h
                    · rw [if_neg d5] at h
                      by_cases d6 : e.val = 0x74
                      · rw [if_pos d6] at h
                        exact ih _ _ _ _ (hacc.append (WellFormed.ascii 0x09 (by decide))) h
                      · rw [if_neg d6] at h
                        by_cases d7 : e.val = 0x75
                        · rw [if_pos d7] at h
                          cases hx : hex4 tl2 with
                          | none => rw [hx] at h; simp at h
                          | some rr =>
                            rw [hx] at h
                            simp only at h
                            by_cases g1 : 0xD800 ≤ rr ∧ rr < 0xE000
                            · rw [if_pos g1] at h
                              cases hg : getu4 (List.drop 4 tl2) with
                              | none =>
                                rw [hg] at h
                                exact ih _ _ _ _ (hacc.append (WellFormed.ofEncodeRune _)) h
                              | some rr1 =>
                                rw [hg] at h
                                simp only at h
                                by_cases g2 : utf16DecodeRune rr rr1 ≠ RuneError
                                · rw [if_pos g2] at h
                                  exact ih _ _ _ _ (hacc.append (WellFormed.ofEncodeRune _)) h
                                · rw [if_neg g2] at h
                                  exact ih _ _ _ _ (hacc.append (WellFormed.ofEncodeRune _)) h
                            · rw [if_neg g1] at h
                              exact ih _ _ _ _ (hacc.append (WellFormed.ofEncodeRune _)) h
                        · rw [if_neg d7] at h
                          cases h
        · rw [if_neg c2] at h
          by_cases c3 : c.val < 0x20
          · rw [if_pos c3] at h
            cases h
          · rw [if_neg c3] at h
            by_cases c4 : c.val < 0x80
            · rw [if_pos c4] at h
              exact ih _ _ _ _ (hacc.append (WellFormed.ascii c c4)) h
            · rw [if_neg c4] at h
              exact ih _ _ _ _ (hacc.append (WellFormed.ofEncodeRune _)) h

/-- The string `parseString` gives passes `utf8.ValidString`. -/
theorem parseString_valid (s out rest : GoString) (h : parseString s = some (out, rest)) :
    validUTF8 out = true :=
  (parseStringBody_wellFormed _ s [] out rest WellFormed.nil h).passes _ (le_refl _)

/-- The values the parser gives: a string value is well-formed UTF-8, the members
of an object have well-formed string values, `parseMembers` gives an object and
`parseElements` an array. -/
theorem parse_valid (fuel : Nat) :
    (∀ depth inp v rest, parseValue fuel depth inp = some (v, rest) → v.stringsValid)
      ∧ (∀ depth inp acc v rest, parseMembers fuel depth inp acc = some (v, rest) →
        (∀ m ∈ acc, ∀ s, m.2 = JSON.str s → validUTF8 s = true) →
        ∃ ms, v = JSON.obj ms ∧ ∀ m ∈ ms, ∀ s, m.2 = JSON.str s → validUTF8 s = true)
      ∧ (∀ depth inp acc v rest, parseElements fuel depth inp acc = some (v, rest) →
        ∃ xs, v = JSON.arr xs) := by
  induction fuel with
  | zero =>
    refine ⟨?_, ?_, ?_⟩
    · intro depth inp v rest h; simp [parseValue] at h
    · intro depth inp acc v rest h; simp [parseMembers] at h
    · intro depth inp acc v rest h; simp [parseElements] at h
  | succ fuel ih =>
    obtain ⟨ihV, ihM, ihE⟩ := ih
    refine ⟨?_, ?_, ?_⟩
    · intro depth inp v rest h
      match inp with
      | [] => simp [parseValue] at h
      | c :: tl =>
        simp only [parseValue] at h
        by_cases c1 : c.val = 0x7B
        · rw [if_pos c1] at h
          by_cases c2 : maxNestingDepth ≤ depth
          · rw [if_pos c2] at h; cases h
          · rw [if_neg c2] at h
            cases hsk : skipSpace tl with
            | nil => rw [hsk] at h; cases h
            | cons d tl2 =>
              rw [hsk] at h
              simp only at h
              by_cases c3 : d.val = 0x7D
              · rw [if_pos c3] at h
                cases h
                simp [JSON.stringsValid]
              · rw [if_neg c3] at h
                obtain ⟨ms, e, hok⟩ := ihM _ _ _ _ _ h (by simp)
                subst e
                exact hok
        · rw [if_neg c1] at h
          by_cases c2 : c.val = 0x5B
          · rw [if_pos c2] at h
            by_cases c3 : maxNestingDepth ≤ depth
            · rw [if_pos c3] at h; cases h
            · rw [if_neg c3] at h
              cases hsk : skipSpace tl with
              | nil => rw [hsk] at h; cases h
              | cons d tl2 =>
                rw [hsk] at h
                simp only at h
                by_cases c4 : d.val = 0x5D
                · rw [if_pos c4] at h
                  cases h
                  trivial
                · rw [if_neg c4] at h
                  obtain ⟨xs, e⟩ := ihE _ _ _ _ _ h
                  subst e
                  trivial
          · rw [if_neg c2] at h
            by_cases c3 : c.val = 0x22
            · rw [if_pos c3] at h
              cases hp : parseString tl with
              | none => rw [hp] at h; cases h
              | some r =>
                obtain ⟨x, r1⟩ := r
                rw [hp] at h
                cases h
                exact parseString_valid _ _ _ hp
            · rw [if_neg c3] at h
              by_cases c4 : c.val = 0x74
              · rw [if_pos c4] at h
                cases hl : stripLit [0x72, 0x75, 0x65] tl with
                | none => rw [hl] at h; cases h
                | some r => rw [hl] at h; cases h; trivial
              · rw [if_neg c4] at h
                by_cases c5 : c.val = 0x66
                · rw [if_pos c5] at h
                  cases hl : stripLit [0x61, 0x6C, 0x73, 0x65] tl with
                  | none => rw [hl] at h; cases h
                  | some r => rw [hl] at h; cases h; trivial
                · rw [if_neg c5] at h
                  by_cases c6 : c.val = 0x6E
                  · rw [if_pos c6] at h
                    cases hl : stripLit [0x75, 0x6C, 0x6C] tl with
                    | none => rw [hl] at h; cases h
                    | some r => rw [hl] at h; cases h; trivial
                  · rw [if_neg c6] at h
                    cases hn : scanNumber (c :: tl) with
                    | none => rw [hn] at h; cases h
                    | some r => rw [hn] at h; cases h; trivial
    · intro depth inp acc v rest h hacc
      match inp with
      | [] => simp [parseMembers] at h
      | q :: tl =>
        simp only [parseMembers] at h
        by_cases c1 : q.val = 0x22
        · simp only [c1, ne_eq, not_true_eq_false, if_false] at h
          cases hp : parseString tl with
          | none => rw [hp] at h; cases h
          | some r =>
            obtain ⟨key, r1⟩ := r
            rw [hp] at h
            simp only at h
            cases hsk : skipSpace r1 with
            | nil => rw [hsk] at h; cases h
            | cons colon r2 =>
              rw [hsk] at h
              simp only at h
              by_cases c2 : colon.val = 0x3A
              · simp only [c2, ne_eq, not_true_eq_false, if_false] at h
                cases hv : parseValue fuel depth (skipSpace r2) with
                | none => rw [hv] at h; cases h
                | some r =>
                  obtain ⟨val, r3⟩ := r
                  rw [hv] at h
                  simp only at h
                  have hval : ∀ s, val = JSON.str s → validUTF8 s = true := by
                    intro s hs
                    have := ihV _ _ _ _ hv
                    rw [hs] at this
                    exact this
                  have hacc2 : ∀ m ∈ acc ++ [(key, val)], ∀ s, m.2 = JSON.str s →
                      validUTF8 s = true := by
                    intro m hm s hs
                    rcases List.mem_append.1 hm with hm | hm
                    · exact hacc m hm s hs
                    · simp only [List.mem_singleton] at hm
                      subst hm
                      exact hval s hs
                  cases hsk2 : skipSpace r3 with
                  | nil => rw [hsk2] at h; cases h
                  | cons sep r4 =>
                    rw [hsk2] at h
                    simp only at h
                    by_cases c3 : sep.val = 0x2C
                    · rw [if_pos c3] at h
                      exact ihM _ _ _ _ _ h hacc2
                    · rw [if_neg c3] at h
                      by_cases c4 : sep.val = 0x7D
                      · rw [if_pos c4] at h
                        simp only [Option.some.injEq, Prod.mk.injEq] at h
                        exact ⟨_, h.1.symm, hacc2⟩
                      · rw [if_neg c4] at h
                        cases h
              · simp only [c2, ne_eq, not_false_eq_true, if_true] at h
                cases h
        · simp only [c1, ne_eq, not_false_eq_true, if_true] at h
          cases h
    · intro depth inp acc v rest h
      simp only [parseElements] at h
      cases hv : parseValue fuel depth inp with
      | none => rw [hv] at h; cases h
      | some r =>
        obtain ⟨val, r1⟩ := r
        rw [hv] at h
        simp only at h
        cases hsk : skipSpace r1 with
        | nil => rw [hsk] at h; cases h
        | cons sep r2 =>
          rw [hsk] at h
          simp only at h
          by_cases c3 : sep.val = 0x2C
          · rw [if_pos c3] at h
            exact ihE _ _ _ _ _ h
          · rw [if_neg c3] at h
            by_cases c4 : sep.val = 0x5D
            · rw [if_pos c4] at h
              simp only [Option.some.injEq, Prod.mk.injEq] at h
              exact ⟨_, h.1.symm⟩
            · rw [if_neg c4] at h
              cases h

/-- What `strconv.ParseInt` accepts is in the range of `int64`. -/
theorem parseInt64_range (lit : GoString) (n : Int) (h : parseInt64 lit = some n) :
    -2 ^ 63 ≤ n ∧ n < 2 ^ 63 := by
  unfold parseInt64 at h
  match lit with
  | [] => cases h
  | b :: rest =>
    simp only at h
    by_cases c : b.val = 0x2D
    · rw [if_pos c] at h
      match rest with
      | [] => cases h
      | x :: xs =>
        simp only at h
        cases hp : parseDigits (x :: xs) 0 with
        | none => rw [hp] at h; cases h
        | some m =>
          rw [hp] at h
          simp only at h
          by_cases c2 : m ≤ 2 ^ 63
          · rw [if_pos c2] at h
            simp only [Option.some.injEq] at h
            omega
          · rw [if_neg c2] at h
            cases h
    · rw [if_neg c] at h
      cases hp : parseDigits (b :: rest) 0 with
      | none => rw [hp] at h; cases h
      | some m =>
        rw [hp] at h
        simp only at h
        by_cases c2 : m < 2 ^ 63
        · rw [if_pos c2] at h
          simp only [Option.some.injEq] at h
          omega
        · rw [if_neg c2] at h
          cases h

/-- A string field after a store is well-formed UTF-8 when it was before and the
value stored is. -/
theorem storeString_valid (v : JSON) (old : GoString) (hold : validUTF8 old = true)
    (hv : ∀ s, v = JSON.str s → validUTF8 s = true) :
    validUTF8 (storeString v old).1 = true := by
  cases v with
  | str s => exact hv s rfl
  | null => exact hold
  | bool b => exact hold
  | num l => exact hold
  | arr xs => exact hold
  | obj ms => exact hold

/-- The `int` field after a store is in the range of `int64` when it was before. -/
theorem storeInt_range (v : JSON) (old : Int) (hold : -2 ^ 63 ≤ old ∧ old < 2 ^ 63) :
    -2 ^ 63 ≤ (storeInt v old).1 ∧ (storeInt v old).1 < 2 ^ 63 := by
  cases v with
  | num lit =>
    simp only [storeInt]
    cases hp : parseInt64 lit with
    | none => exact hold
    | some n => exact parseInt64_range lit n hp
  | null => exact hold
  | bool b => exact hold
  | str s => exact hold
  | arr xs => exact hold
  | obj ms => exact hold

/-- Storing the members of an object keeps the strings of the record well-formed
UTF-8 and its expiry in the range of `int64`. -/
theorem foldl_storeMember_valid (ms : List (GoString × JSON))
    (hms : ∀ m ∈ ms, ∀ s, m.2 = JSON.str s → validUTF8 s = true) :
    ∀ st : GetTokenResponse × Option Error,
      (validUTF8 st.1.AccessToken = true ∧ validUTF8 st.1.RefreshToken = true
        ∧ validUTF8 st.1.TokenType = true
        ∧ -2 ^ 63 ≤ st.1.ExpiresIn ∧ st.1.ExpiresIn < 2 ^ 63) →
      (validUTF8 (ms.foldl storeMember st).1.AccessToken = true
        ∧ validUTF8 (ms.foldl storeMember st).1.RefreshToken = true
        ∧ validUTF8 (ms.foldl storeMember st).1.TokenType = true
        ∧ -2 ^ 63 ≤ (ms.foldl storeMember st).1.ExpiresIn
        ∧ (ms.foldl storeMember st).1.ExpiresIn < 2 ^ 63) := by
  induction ms with
  | nil => intro st h; exact h
  | cons m ms ih =>
    intro st h
    have hm := hms m (List.mem_cons_self _ _)
    apply ih (fun x hx => hms x (List.mem_cons_of_mem _ hx))
    obtain ⟨h1, h2, h3, h4⟩ := h
    unfold storeMember
    cases fieldOf m.1 with
    | none => exact ⟨h1, h2, h3, h4⟩
    | some f =>
      cases f with
      | accessToken => exact ⟨storeString_valid _ _ h1 hm, h2, h3, h4⟩
      | refreshToken => exact ⟨h1, storeString_valid _ _ h2 hm, h3, h4⟩
      | expiresIn => exact ⟨h1, h2, h3, storeInt_range _ _ h4⟩
      | tokenType => exact ⟨h1, h2, storeString_valid _ _ h3 hm, h4⟩

/-- The record `json.Unmarshal` gives has well-formed UTF-8 strings and an expiry in
the range of `int64`, whatever the input. -/
theorem jsonUnmarshal_valid (data : GoString) (t : GetTokenResponse)
    (h : (jsonUnmarshal data).1 = some t) :
    validUTF8 t.AccessToken = true ∧ validUTF8 t.RefreshToken = true
      ∧ validUTF8 t.TokenType = true ∧ -2 ^ 63 ≤ t.ExpiresIn ∧ t.ExpiresIn < 2 ^ 63 := by
  have hz : validUTF8 GetTokenResponse.zero.AccessToken = true
      ∧ validUTF8 GetTokenResponse.zero.RefreshToken = true
      ∧ validUTF8 GetTokenResponse.zero.TokenType = true
      ∧ -2 ^ 63 ≤ GetTokenResponse.zero.ExpiresIn
      ∧ GetTokenResponse.zero.ExpiresIn < 2 ^ 63 := by
    decide
  unfold jsonUnmarshal at h
  cases hp : parseJSON data with
  | none => rw [hp] at h; cases h
  | some v =>
    rw [hp] at h
    cases v with
    | null => cases h
    | bool b =>
      simp only [decodeToken, Option.some.injEq] at h
      rw [← h]
      exact hz
    | num l =>
      simp only [decodeToken, Option.some.injEq] at h
      rw [← h]
      exact hz
    | str s =>
      simp only [decodeToken, Option.some.injEq] at h
      rw [← h]
      exact hz
    | arr xs =>
      simp only [decodeToken, Option.some.injEq] at h
      rw [← h]
      exact hz
    | obj ms =>
      simp only [decodeToken, Option.some.injEq] at h
      rw [← h]
      unfold parseJSON at hp
      cases hv : parseValue (data.length + 1) 0 (skipSpace data) with
      | none => rw [hv] at hp; cases hp
      | some r =>
        obtain ⟨v, rest⟩ := r
        rw [hv] at hp
        simp only at hp
        by_cases c : skipSpace rest = []
        · rw [if_pos c] at hp
          simp only [Option.some.injEq] at hp
          subst hp
          exact foldl_storeMember_valid ms ((parse_valid _).1 _ _ _ _ hv) _ hz
        · rw [if_neg c] at hp
          cases hp

/-! ## Persisting, then loading -/

set_option maxRecDepth 100000 in
/-- C2 as stated fails, in four ways. A record whose access token is the byte `0xFF`
(not UTF-8) is written with the access token `�` and loads as a record whose
access token is the three bytes of U+FFFD. At a token file that may be written and
may not be read, `Write` succeeds and `LoadToken` fails to open it. At the device
`/dev/null`, `Write` succeeds, nothing is kept and `LoadToken` finds no JSON. At a
path that names nothing, under a umask that takes the owner's read permission off new
files, `Write` makes the file and `LoadToken` fails to open it. -/
theorem Write_then_LoadToken_differs :
    ((⟨[0xFF], str "r", 3600, str "bearer"⟩ : GetTokenResponse).Write (str "token.json")
        sampleWorld).1 = none
      ∧ (LoadToken (str "token.json")
          ((⟨[0xFF], str "r", 3600, str "bearer"⟩ : GetTokenResponse).Write (str "token.json")
            sampleWorld).2).1
        = (some ⟨[0xEF, 0xBF, 0xBD], str "r", 3600, str "bearer"⟩, none)
      ∧ ((⟨str "a", str "r", 3600, str "bearer"⟩ : GetTokenResponse).Write (str "token.json")
          writeOnlyWorld).1 = none
      ∧ (LoadToken (str "token.json")
          ((⟨str "a", str "r", 3600, str "bearer"⟩ : GetTokenResponse).Write (str "token.json")
            writeOnlyWorld).2).1
        = (none, some (Error.pathError (str "open") (str "token.json") Errno.EACCES))
      ∧ ((⟨str "a", str "r", 3600, str "bearer"⟩ : GetTokenResponse).Write (str "/dev/null")
          deviceWorld).1 = none
      ∧ (LoadToken (str "/dev/null")
          ((⟨str "a", str "r", 3600, str "bearer"⟩ : GetTokenResponse).Write (str "/dev/null")
            deviceWorld).2).1
        = (none, some Error.badJSON)
      ∧ ((⟨str "a", str "r", 3600, str "bearer"⟩ : GetTokenResponse).Write (str "new.json")
          umaskWorld).1 = none
      ∧ (LoadToken (str "new.json")
          ((⟨str "a", str "r", 3600, str "bearer"⟩ : GetTokenResponse).Write (str "new.json")
            umaskWorld).2).1
        = (none, some (Error.pathError (str "open") (str "new.json") Errno.EACCES)) := by
  decide

/-- C2 amended. For every record whose access token, refresh token and token type
are well-formed UTF-8 (with whatever characters `json.Marshal` escapes) and whose
expiry is in the range of `int`, and every path at which `Write` succeeds and which
names afterwards a regular file (no device) that the process may read, `LoadToken`
after `Write` returns no error and the record, field for field. -/
theorem Write_then_LoadToken (r : GetTokenResponse) (filePath : GoString) (w : World)
    (hA : validUTF8 r.AccessToken = true) (hR : validUTF8 r.RefreshToken = true)
    (hT : validUTF8 r.TokenType = true)
    (hI : -2 ^ 63 ≤ r.ExpiresIn ∧ r.ExpiresIn < 2 ^ 63)
    (hw : (r.Write filePath w).1 = none)
    (hread : ∀ f, (r.Write filePath w).2.fs.lookup filePath = some f →
      f.isDevice = false ∧ f.canRead = true) :
    (LoadToken filePath (r.Write filePath w).2).1 = (some r, none) := by
  obtain ⟨f, hl, hdir, hsearch, hdata⟩ := Write_ok_post r filePath w hw
  obtain ⟨hdev, hcan⟩ := hread f hl
  simp only [LoadToken, osStat, osOpen, hl, hsearch, hcan, hdir, readAll, hdata hdev, if_true,
    Bool.and_self, Bool.false_eq_true, if_false]
  exact jsonUnmarshal_jsonMarshal r hA hR hT hI

set_option maxRecDepth 100000 in
/-- C2 amended, at a record whose strings hold a quote, a backslash, a control
character, `<`, `>`, `&` and letters past ASCII, written over a regular file. -/
theorem Write_then_LoadToken_witness :
    validUTF8 (str "a\"\\\n<>&é€😀") = true
      ∧ ((⟨str "a\"\\\n<>&é€😀", str "r\x01", -3600, str "bearer"⟩ : GetTokenResponse).Write
          (str "token.json") sampleWorld).1 = none
      ∧ (∀ f, ((⟨str "a\"\\\n<>&é€😀", str "r\x01", -3600, str "bearer"⟩ :
            GetTokenResponse).Write (str "token.json") sampleWorld).2.fs.lookup
              (str "token.json") = some f →
          f.isDevice = false ∧ f.canRead = true)
      ∧ (LoadToken (str "token.json")
          ((⟨str "a\"\\\n<>&é€😀", str "r\x01", -3600, str "bearer"⟩ : GetTokenResponse).Write
            (str "token.json") sampleWorld).2).1
        = (some ⟨str "a\"\\\n<>&é€😀", str "r\x01", -3600, str "bearer"⟩, none) :=
  ⟨by decide, by decide, by decide,
    Write_then_LoadToken ⟨str "a\"\\\n<>&é€😀", str "r\x01", -3600, str "bearer"⟩
      (str "token.json") sampleWorld (by decide) (by decide) (by decide) (by decide)
      (by decide) (by decide)⟩

/-! ## `get-token` from end to end -/

/-- The last member that selects a field, when one more member is appended. -/
theorem lastValue_concat (f : Field) (ms : List (GoString × JSON)) (m : GoString × JSON) :
    lastValue f (ms ++ [m]) = if fieldOf m.1 = some f then some m.2 else lastValue f ms := by
  unfold lastValue
  rw [List.filter_append]
  by_cases h : fieldOf m.1 = some f
  · simp [List.filter_cons, h]
  · simp [List.filter_cons, h]

/-- The member stored last wins: after the members of an object are stored, a field
holds the value of the last member that selects it, when that value is a string (for a
string field) or the decimal text of an integer in the range of `int`. -/
theorem foldl_storeMember_last (ms : List (GoString × JSON))
    (st : GetTokenResponse × Option Error) :
    (∀ a, lastValue Field.accessToken ms = some (JSON.str a) →
        (ms.foldl storeMember st).1.AccessToken = a)
      ∧ (∀ r, lastValue Field.refreshToken ms = some (JSON.str r) →
        (ms.foldl storeMember st).1.RefreshToken = r)
      ∧ (∀ n : Int, -2 ^ 63 ≤ n ∧ n < 2 ^ 63 →
        lastValue Field.expiresIn ms = some (JSON.num (Itoa n)) →
        (ms.foldl storeMember st).1.ExpiresIn = n)
      ∧ (∀ ty, lastValue Field.tokenType ms = some (JSON.str ty) →
        (ms.foldl storeMember st).1.TokenType = ty) := by
  induction ms using List.reverseRecOn with
  | nil => simp [lastValue]
  | append_singleton ms m ih =>
    obtain ⟨ihA, ihR, ihE, ihT⟩ := ih
    rw [List.foldl_append, List.foldl_cons, List.foldl_nil]
    simp only [lastValue_concat]
    unfold storeMember
    cases hf : fieldOf m.1 with
    | none =>
      simp only [reduceCtorEq, if_false]
      exact ⟨ihA, ihR, ihE, ihT⟩
    | some F =>
      cases F with
      | accessToken =>
        simp only [Option.some.injEq, reduceCtorEq, if_false, if_true]
        refine ⟨?_, ihR, ihE, ihT⟩
        intro a h
        rw [h]
        rfl
      | refreshToken =>
        simp only [Option.some.injEq, reduceCtorEq, if_false, if_true]
        refine ⟨ihA, ?_, ihE, ihT⟩
        intro a h
        rw [h]
        rfl
      | expiresIn =>
        simp only [Option.some.injEq, reduceCtorEq, if_false, if_true]
        refine ⟨ihA, ihR, ?_, ihT⟩
        intro n hn h
        rw [h]
        simp only [storeInt, parseInt64_Itoa n hn]
      | tokenType =>
        simp only [Option.some.injEq, reduceCtorEq, if_false, if_true]
        refine ⟨ihA, ihR, ihE, ?_⟩
        intro a h
        rw [h]
        rfl

/-- C4 amended. In a run of `get-token` whose flags parse and whose client id,
client secret and code are not empty, when the exchange endpoint answers with a body
that is a JSON object `ms` (whatever other members it has) in which the last member
named `access_token` (up to the case folding of `encoding/json`) is a non-empty
string `a`, the last named `refresh_token` a non-empty string `r`, the last named
`token_type` a non-empty string `ty` and the last named `expires_in` the decimal text
of a non-zero integer `n` within the range of `int`, and the token file can be opened
for writing, is a regular file (or new) and its device has room, then `main` returns,
the token file holds one JSON object with exactly the four fields `access_token`,
`refresh_token`, `expires_in` and `token_type` and the values `a`, `r`, `n` and `ty`
(what is in the file decodes to them again, without an error), and the run prints the
line naming the file and nothing else. -/
theorem get_token_stores_response (net : Request → NetResult) (prog : GoString)
    (arguments : List GoString) (environ : List (GoString × GoString)) (w : World)
    (v : Vars) (body : GoString) (ms : List (GoString × JSON)) (a r ty : GoString)
    (n : Int) (fs1 : FS)
    (hparse : flagParse (arguments.length + 1) getCmd arguments (initialVars environ)
      = Except.ok v)
    (hid : v.clientID ≠ []) (hsecret : v.clientSecret ≠ []) (hcode : v.clientCode ≠ [])
    (hnet : net (buildRequest v.clientID v.clientSecret (getTokenValues v))
      = NetResult.body body)
    (hbody : parseJSON body = some (JSON.obj ms))
    (hA : lastValue Field.accessToken ms = some (JSON.str a))
    (hR : lastValue Field.refreshToken ms = some (JSON.str r))
    (hE : lastValue Field.expiresIn ms = some (JSON.num (Itoa n)))
    (hT : lastValue Field.tokenType ms = some (JSON.str ty))
    (hfull : a ≠ [] ∧ r ≠ [] ∧ n ≠ 0 ∧ ty ≠ [])
    (hI : -2 ^ 63 ≤ n ∧ n < 2 ^ 63)
    (hopen : osOpenFile w.fs v.tokenFile = Except.ok fs1) (hroom : w.fs.full = false)
    (hreg : ∀ g, w.fs.lookup v.tokenFile = some g → g.isDevice = false) :
    ∃ w1, main net (prog :: str "get-token" :: arguments) environ w = Result.ok () w1
      ∧ (w1.fs.lookup v.tokenFile).map File.data
        = some (str "\x7b\"access_token\":" ++ appendString a
            ++ str ",\"refresh_token\":" ++ appendString r
            ++ str ",\"expires_in\":" ++ Itoa n
            ++ str ",\"token_type\":" ++ appendString ty ++ str "\x7d")
      ∧ jsonUnmarshal (str "\x7b\"access_token\":" ++ appendString a
            ++ str ",\"refresh_token\":" ++ appendString r
            ++ str ",\"expires_in\":" ++ Itoa n
            ++ str ",\"token_type\":" ++ appendString ty ++ str "\x7d")
        = (some ⟨a, r, n, ty⟩, none)
      ∧ w1.stdout
        = w.stdout ++ [Output.text (str "writing token to " ++ v.tokenFile ++ str "\n")]
      ∧ w1.stderr = w.stderr := by
  obtain ⟨hne, hfull1, f, hfs1, -, -, -, hdevf⟩ := osOpenFile_ok _ _ _ hopen
  have hdev : f.isDevice = false := by
    rw [hdevf]
    cases hl0 : w.fs.lookup v.tokenFile with
    | none => rfl
    | some g => exact hreg g hl0
  obtain ⟨lA, lR, lE, lT⟩ := foldl_storeMember_last ms (GetTokenResponse.zero, none)
  have hdec : (jsonUnmarshal body).1 = some ⟨a, r, n, ty⟩ := by
    have e1 := lA a hA
    have e2 := lR r hR
    have e3 := lE n hI hE
    have e4 := lT ty hT
    unfold jsonUnmarshal
    rw [hbody]
    simp only [decodeToken, Option.some.injEq]
    cases hfold : (ms.foldl storeMember (GetTokenResponse.zero, none)).1 with
    | mk x1 x2 x3 x4 =>
      rw [hfold] at e1 e2 e3 e4
      simp only at e1 e2 e3 e4
      subst e1 e2 e3 e4
      rfl
  have ht : (⟨a, r, n, ty⟩ : GetTokenResponse).isEmpty = false := by
    simp [GetTokenResponse.isEmpty, hfull.1, hfull.2.1, hfull.2.2.1, hfull.2.2.2]
  have hl : fs1.lookup v.tokenFile = some f := by
    rw [hfs1]
    exact FS.lookup_store_self _ _ _ hne
  have hG : GetToken net v.clientID v.clientSecret (getTokenValues v) w
      = ((some ⟨a, r, n, ty⟩, none),
          w.record (Event.httpDo (buildRequest v.clientID v.clientSecret (getTokenValues v)))) := by
    unfold GetToken
    simp only [hnet, hdec]
  have hW := Write_of_open ⟨a, r, n, ty⟩ v.tokenFile
    (w.record (Event.httpDo (buildRequest v.clientID v.clientSecret (getTokenValues v))))
    fs1 f ht hopen hl hdev (by rw [hfull1]; exact hroom)
  rw [main_get_token]
  refine ⟨((⟨a, r, n, ty⟩ : GetTokenResponse).Write v.tokenFile
    (w.record (Event.httpDo (buildRequest v.clientID v.clientSecret (getTokenValues v))))).2,
    ?_, ?_, ?_, ?_, ?_⟩
  · simp only [runGetToken, parseOrExit, hparse, lintArgs, hid, hsecret, hcode, false_or,
      if_false, and_false, storeToken, hG, hW]
  · rw [hW]
    simp only [FS.lookup_store_self _ _ _ hne, Option.map_some', jsonMarshal]
  · obtain ⟨v1, v2, v3, -, -⟩ := jsonUnmarshal_valid body ⟨a, r, n, ty⟩ hdec
    exact jsonUnmarshal_jsonMarshal ⟨a, r, n, ty⟩ v1 v2 v3 hI
  · rw [hW]
    rfl
  · rw [hW]
    rfl

set_option maxRecDepth 100000 in
/-- C4 as stated fails, in six ways. (1) When the answer carries `"expires_in":3.6e3`,
a number that is not zero, `json.Unmarshal` does not store it in the `int` field,
`Write` refuses the record, the token file keeps its contents and the run prints an
error. (2) The same happens when `expires_in` is an integer past the range of `int`.
(3) When the answer carries the four fields and after them a field `ACCESS_TOKEN`
with the empty string, `json.Unmarshal` stores that field over the access token and
`Write` refuses the record. (4) When neither `-file` nor `YAHOO_APP_TOKEN_FILE` names
the token file, the answer of the specification's example is fetched and `Write`
fails to open the empty path. (5) When the token file is the device `/dev/null`, the
run prints the confirmation and no error, and the file holds nothing. (6) When the
device of the token file has no room, the file is emptied, the write fails and the
run prints an error after the confirmation. -/
theorem get_token_rejects_exponent_expiry :
    main
        (fun _ => NetResult.body
          (str "\x7b\"access_token\":\"a\",\"refresh_token\":\"r\",\"expires_in\":3.6e3,\"token_type\":\"bearer\"\x7d"))
        getTokenArgs [] sampleWorld
        = Result.ok ()
            { sampleWorld with
              stdout := [Output.textErr (str "error writing token: ")
                (Error.tokenEmpty ⟨str "a", str "r", 0, str "bearer"⟩)]
              log := [Event.httpDo getTokenRequest] }
      ∧ main
        (fun _ => NetResult.body
          (str "\x7b\"access_token\":\"a\",\"refresh_token\":\"r\",\"expires_in\":99999999999999999999,\"token_type\":\"bearer\"\x7d"))
        getTokenArgs [] sampleWorld
        = Result.ok ()
            { sampleWorld with
              stdout := [Output.textErr (str "error writing token: ")
                (Error.tokenEmpty ⟨str "a", str "r", 0, str "bearer"⟩)]
              log := [Event.httpDo getTokenRequest] }
      ∧ main
        (fun _ => NetResult.body
          (str "\x7b\"access_token\":\"a\",\"refresh_token\":\"r\",\"expires_in\":3600,\"token_type\":\"bearer\",\"ACCESS_TOKEN\":\"\"\x7d"))
        getTokenArgs [] sampleWorld
        = Result.ok ()
            { sampleWorld with
              stdout := [Output.textErr (str "error writing token: ")
                (Error.tokenEmpty ⟨[], str "r", 3600, str "bearer"⟩)]
              log := [Event.httpDo getTokenRequest] }
      ∧ main (fun _ => NetResult.body sampleBody) (getTokenArgs.take 8) [] sampleWorld
        = Result.ok ()
            { sampleWorld with
              stdout := [Output.textErr (str "error writing token: ")
                (Error.pathError (str "open") [] Errno.ENOENT)]
              log := [Event.httpDo getTokenRequest, Event.openTrunc []] }
      ∧ main (fun _ => NetResult.body sampleBody) (getTokenArgs.take 9 ++ [str "/dev/null"]) []
          deviceWorld
        = Result.ok ()
            { deviceWorld with
              stdout := [Output.text (str "writing token to /dev/null\n")]
              log := [Event.httpDo getTokenRequest, Event.openTrunc (str "/dev/null"),
                Event.write (str "/dev/null") sampleBody] }
      ∧ (deviceWorld.fs.lookup (str "/dev/null")).map File.data = some []
      ∧ main (fun _ => NetResult.body sampleBody) getTokenArgs [] fullWorld
        = Result.ok ()
            { fs :=
                { files := [(str "token.json", { sampleFile with data := [] })]
                  noCreate := []
                  full := true
                  umaskRead := false
                  umaskWrite := false }
              stdout := [Output.text (str "writing token to token.json\n"),
                Output.textErr (str "error writing token: ")
                  (Error.pathError (str "write") (str "token.json") Errno.ENOSPC)]
              stderr := []
              log := [Event.httpDo getTokenRequest, Event.openTrunc (str "token.json"),
                Event.write (str "token.json") sampleBody] } := by
  refine ⟨?_, ?_, ?_, ?_, ?_, ?_, ?_⟩ <;> decide

set_option maxRecDepth 100000 in
/-- C4 amended, at an answer that carries the four fields of the specification's
example, a fifth field and white space, stored over a regular file. -/
theorem get_token_stores_response_witness :
    parseJSON guidBody = some (JSON.obj guidMembers)
      ∧ lastValue Field.accessToken guidMembers = some (JSON.str (str "a"))
      ∧ lastValue Field.expiresIn guidMembers = some (JSON.num (Itoa 3600))
      ∧ osOpenFile sampleWorld.fs (str "token.json")
        = Except.ok (sampleWorld.fs.store (str "token.json") { sampleFile with data := [] })
      ∧ ∃ w1, main (fun _ => NetResult.body guidBody)
            (str "helper" :: str "get-token" :: getTokenArgs.drop 2) [] sampleWorld
          = Result.ok () w1
        ∧ (w1.fs.lookup (str "token.json")).map File.data = some sampleBody
        ∧ jsonUnmarshal sampleBody = (some ⟨str "a", str "r", 3600, str "bearer"⟩, none)
        ∧ w1.stdout = [Output.text (str "writing token to token.json\n")]
        ∧ w1.stderr = [] :=
  ⟨rfl, rfl, rfl, by decide,
    get_token_stores_response (fun _ => NetResult.body guidBody) (str "helper")
      (getTokenArgs.drop 2) [] sampleWorld ⟨str "code", str "id", str "secret", str "token.json"⟩
      guidBody guidMembers (str "a") (str "r") (str "bearer") 3600
      (sampleWorld.fs.store (str "token.json") { sampleFile with data := [] })
      (by decide) (by decide) (by decide) (by decide) rfl rfl rfl rfl rfl rfl
      (by decide) (by decide) (by decide) (by decide) (by decide)⟩

/-! ## When the two failing runs go right -/

/-- A format without `%` is printed as it is. -/
theorem doPrintf_of_no_percent (fuel : Nat) :
    ∀ s : GoString, s.length ≤ fuel → (∀ b ∈ s, b.val ≠ 0x25) → doPrintf fuel s = s := by
  induction fuel with
  | zero =>
    intro s hl _
    have : s = [] := List.length_eq_zero.1 (by omega)
    subst this
    rfl
  | succ fuel ih =>
    intro s hl hs
    match s with
    | [] => rfl
    | c :: rest =>
      have hc := hs c (List.mem_cons_self _ _)
      simp only [doPrintf, ne_eq, hc, not_false_eq_true, if_true, List.cons.injEq, true_and]
      exact ih rest (by simpa using hl) (fun b hb => hs b (List.mem_cons_of_mem _ hb))

set_option maxRecDepth 100000 in
/-- The link of `get-code` is printed as `GetCode` returns it when the client id has
no `%`. -/
theorem get_code_prints_link (net : Request → NetResult) (prog : GoString)
    (arguments : List GoString) (environ : List (GoString × GoString)) (w : World)
    (v : Vars)
    (hparse : flagParse (arguments.length + 1) getCodeCmd arguments (initialVars environ)
      = Except.ok v)
    (hid : v.clientID ≠ []) (hpc : ∀ b ∈ v.clientID, b.val ≠ 0x25) :
    main net (prog :: str "get-code" :: arguments) environ w
      = Result.ok () (w.print (codeLink v.clientID)) := by
  have h1 : ∀ b ∈ str "Click this link to retrieve a code:\nhttps://api.login.yahoo.com/oauth2/request_auth?client_id=",
      b.val ≠ 0x25 := by
    decide
  have h2 : ∀ b ∈ str "&redirect_uri=oob&response_type=code\n\n", b.val ≠ 0x25 := by
    decide
  have hlink : printf0 (codeLink v.clientID) = codeLink v.clientID := by
    apply doPrintf_of_no_percent _ _ (le_refl _)
    intro b hb
    unfold codeLink at hb
    rcases List.mem_append.1 hb with hb | hb
    · rcases List.mem_append.1 hb with hb | hb
      · exact h1 b hb
      · exact hpc b hb
    · exact h2 b hb
  rw [main_get_code]
  simp only [runGetCode, parseOrExit, hparse, GetCode, hid, if_false, hlink]

/-- A run of `get-token` with its three inputs given dies of a nil pointer
dereference exactly when the exchange endpoint answers with a body that
`json.Unmarshal` leaves the pointer nil for: the document `null`, or input that is
not a JSON document. Every other run returns. -/
theorem get_token_panics_iff (net : Request → NetResult) (prog : GoString)
    (arguments : List GoString) (environ : List (GoString × GoString)) (w : World)
    (v : Vars)
    (hparse : flagParse (arguments.length + 1) getCmd arguments (initialVars environ)
      = Except.ok v)
    (hid : v.clientID ≠ []) (hsecret : v.clientSecret ≠ []) (hcode : v.clientCode ≠ []) :
    ((∃ w1, main net (prog :: str "get-token" :: arguments) environ w = Result.panic w1)
        ↔ ∃ body, net (buildRequest v.clientID v.clientSecret (getTokenValues v))
            = NetResult.body body ∧ (jsonUnmarshal body).1 = none)
      ∧ ((∃ w1, main net (prog :: str "get-token" :: arguments) environ w = Result.panic w1)
        ∨ ∃ w1, main net (prog :: str "get-token" :: arguments) environ w
            = Result.ok () w1) := by
  rw [main_get_token]
  simp only [runGetToken, parseOrExit, hparse, lintArgs, hid, hsecret, hcode, false_or,
    if_false, and_false, storeToken]
  unfold GetToken
  simp only []
  cases hn : net (buildRequest v.clientID v.clientSecret (getTokenValues v)) with
  | transportError r => simp
  | readError r => simp
  | body b =>
    simp only []
    cases hd : (jsonUnmarshal b).1 with
    | none => simp [hd]
    | some t =>
      simp only [hd]
      cases hw : (t.Write v.tokenFile
        (w.record (Event.httpDo (buildRequest v.clientID v.clientSecret (getTokenValues v))))).1
        <;> simp [hd]

end YahooOAuth
